import Mathlib

/-!
Verification of the StoryWeaverAI prompt-assembly core.

This file gives a shallow embedding, in Lean, of the template-resolution
engine (`parseTemplate`), the context-relevance selection
(`selectCodex` / character seed + chain scan in `generateStory`, and
`detectCharacters`), the suggestion-response parsing cascade
(`handleGenerateSuggestions`), and the cancellation behaviour of
`generateStory`, all from `src/components/Editor.tsx`, together with
theorems settling the specification claims about them.

Modelling conventions:
- JavaScript strings are `String` (a list of `Char`); the per-character
  functions mirror the ASCII behaviour of the JS operations actually
  exercised (`toLowerCase` is modelled by `Char.toLower`, `\s` and
  `trim` by the ASCII whitespace class).
- JS `Array.prototype.sort`, which is stable, is modelled by
  `List.insertionSort` (a stable sort).
- Regex operations are modelled by equivalent explicit scanners:
  a global literal replace — with ECMAScript `$`-substitution
  patterns interpreted when the source passes a STRING replacement
  (the pov/tense/currentChapter stages) and verbatim insertion when
  it passes a FUNCTION — a global `{key:(\d+)}` replace, the
  `\b...\b` case-insensitive word-boundary test used by
  `detectCharacters`, and the field-capture scan of the suggestion
  parser.
- `JSON.parse` is modelled by a strict JSON parser over an inductive
  `Json` type (with numeric literals kept as lexemes, since no claim
  depends on float arithmetic).
-/

namespace StoryWeaver

/-! ### Basic string machinery -/

/-- Decidable substring test on character lists: `containsSubList needle hay`
is true iff `needle` occurs contiguously inside `hay` (JS `String.includes`). -/
def containsSubList (needle : List Char) : List Char → Bool
  | [] => needle.isEmpty
  | c :: t => needle.isPrefixOf (c :: t) || containsSubList needle t

/-- JS `hay.includes(needle)`. -/
def strIncludes (hay needle : String) : Bool :=
  containsSubList needle.data hay.data

/-- JS `toLowerCase`, restricted to the ASCII case mapping. -/
def lowerStr (s : String) : String :=
  ⟨s.data.map Char.toLower⟩

/-- ASCII whitespace class used to model JS `\s` and `trim`. -/
def isWsChar (c : Char) : Bool :=
  c = ' ' || c = '\t' || c = '\n' || c = '\r' || c = '\x0b' || c = '\x0c'

/-- JS `String.prototype.trim` (ASCII whitespace). -/
def jsTrimL (l : List Char) : List Char :=
  ((l.dropWhile isWsChar).reverse.dropWhile isWsChar).reverse

/-- JS `String.prototype.trim` on `String`. -/
def jsTrim (s : String) : String :=
  ⟨jsTrimL s.data⟩

/-- Split on runs of whitespace, dropping empty tokens; applied to trimmed
content this agrees with JS `content.trim().split(/\s+/)` (with the JS
corner case that the split of the empty string yields `[""]` modelled by
returning `[]`, which the caller treats identically). -/
def splitWsAux : List Char → List Char → List (List Char)
  | acc, [] => if acc.isEmpty then [] else [acc.reverse]
  | acc, c :: t =>
    if isWsChar c then
      if acc.isEmpty then splitWsAux [] t else acc.reverse :: splitWsAux [] t
    else splitWsAux (c :: acc) t

/-- Whitespace-token split of a string. -/
def splitWs (s : String) : List String :=
  (splitWsAux [] s.data).map String.mk

/-- Numeric value of a decimal digit string (JS `parseInt(numStr, 10)` for
the all-digit strings matched by `(\d+)`). -/
def digitsVal (l : List Char) : Nat :=
  l.foldl (fun n c => n * 10 + (c.toNat - '0'.toNat)) 0

/-- Worker of the global left-to-right literal replacement: when the
skip counter is positive the scanner is inside an already-replaced
match and drops the character; at skip `0` a pattern match emits the
replacement and schedules the remaining `pat.length - 1` matched
characters for dropping. The replacement text is never rescanned. -/
def replaceAllAux (pat rep : List Char) : List Char → Nat → List Char
  | [], _ => []
  | _ :: t, Nat.succ k => replaceAllAux pat rep t k
  | c :: t, 0 =>
    if pat ≠ [] ∧ pat.isPrefixOf (c :: t) then
      rep ++ replaceAllAux pat rep t (pat.length - 1)
    else
      c :: replaceAllAux pat rep t 0

/-- Global left-to-right literal replacement, modelling a JS global
regex replace whose pattern is a fixed literal. -/
def replaceAllL (pat rep l : List Char) : List Char :=
  replaceAllAux pat rep l 0

/-- String-level global literal replacement (used for the stages whose
source passes a FUNCTION replacement, which JS inserts verbatim). -/
def replaceAllS (s : String) (pat rep : String) : String :=
  ⟨replaceAllL pat.data rep.data s.data⟩

/-- ECMAScript `GetSubstitution` for a STRING replacement against a
regex without capture groups: scan the replacement for dollar
patterns — a doubled dollar inserts one dollar, dollar-ampersand the
matched text, dollar-backtick the subject prefix before the match,
dollar-quote the subject suffix after it; dollar followed by a digit
or an angle bracket stays literal because the pattern has no (named)
captures, as does any other dollar. -/
def expandRep (matched before after : List Char) : List Char → List Char
  | [] => []
  | c :: t =>
    if c = '$' then
      match t with
      | [] => ['$']
      | e :: t2 =>
        if e = '$' then '$' :: expandRep matched before after t2
        else if e = '&' then matched ++ expandRep matched before after t2
        else if e = Char.ofNat 96 then before ++ expandRep matched before after t2
        else if e = Char.ofNat 39 then after ++ expandRep matched before after t2
        else '$' :: expandRep matched before after (e :: t2)
    else c :: expandRep matched before after t

/-- Worker of a JS global replace with a STRING replacement: like
`replaceAllAux`, but every inserted replacement is `$`-expanded via
`expandRep`; `seen` accumulates (reversed) the original characters
already scanned, so that dollar-backtick and dollar-quote see the
original prefix and suffix around each match. -/
def replaceAllJSAux (pat rep : List Char) : List Char → Nat → List Char → List Char
  | [], _, _ => []
  | c :: t, Nat.succ k, seen => replaceAllJSAux pat rep t k (c :: seen)
  | c :: t, 0, seen =>
    if pat ≠ [] ∧ pat.isPrefixOf (c :: t) then
      expandRep pat seen.reverse ((c :: t).drop pat.length) rep
        ++ replaceAllJSAux pat rep t (pat.length - 1) (c :: seen)
    else
      c :: replaceAllJSAux pat rep t 0 (c :: seen)

/-- JS `s.replace(/pat/g, rep)` with a string replacement: global
left-to-right literal matching with `$`-pattern interpretation of the
replacement text. -/
def replaceAllJS (s : String) (pat rep : String) : String :=
  ⟨replaceAllJSAux pat.data rep.data s.data 0 []⟩

/-- Worker of the `{key:(\d+)}` replacement, with the same skip-counter
technique as `replaceAllAux`: a fired match at `'{'` substitutes
`f digits` and schedules the rest of the match
(`key ++ ':' ++ digits ++ '}'`) for dropping, so substituted text is
not rescanned. -/
def replaceNumArgAux (key : List Char) (f : List Char → List Char) : List Char → Nat → List Char
  | [], _ => []
  | _ :: t, Nat.succ k => replaceNumArgAux key f t k
  | c :: t, 0 =>
    if ('{' :: key ++ [':']).isPrefixOf (c :: t) then
      let rest := (c :: t).drop (key.length + 2)
      let digits := rest.takeWhile Char.isDigit
      if digits ≠ [] ∧ (rest.drop digits.length).headD ' ' = '}' then
        f digits ++ replaceNumArgAux key f t (key.length + 1 + digits.length + 1)
      else
        c :: replaceNumArgAux key f t 0
    else
      c :: replaceNumArgAux key f t 0

/-- Global replacement of `{key:(\d+)}` occurrences, modelling
`result.replace(/{key:(\d+)}/g, (m, numStr) => f numStr)`: the scanner
moves left to right and fires on `'{' ++ key ++ ':' ++ digits ++ '}'`
with at least one digit. -/
def replaceNumArg (key : List Char) (f : List Char → List Char) (l : List Char) : List Char :=
  replaceNumArgAux key f l 0

/-! ### Data model (src/unnamed/part_001, `types.ts`) -/

/-- Chapter record: id, title, summary, content, integer order. -/
structure Chapter where
  id : String
  title : String
  summary : String
  content : String
  order : Int
deriving DecidableEq, Repr

/-- Codex item: id, title, content, trigger tags, `isGlobal` flag. -/
structure CodexItem where
  id : String
  title : String
  content : String
  tags : List String
  isGlobal : Bool
deriving DecidableEq, Repr

/-- Character: id, name, alias triggers, description, `isGlobal` flag
(the portrait field is irrelevant to the core and omitted). -/
structure Character where
  id : String
  name : String
  aliases : List String
  description : String
  isGlobal : Bool
deriving DecidableEq, Repr

/-- Book state used by the resolver: pov/tense labels, chapters, codex,
characters. -/
structure Book where
  id : String
  title : String
  chapters : List Chapter
  codex : List CodexItem
  characters : List Character
  pov : String
  tense : String
deriving DecidableEq, Repr

/-- Comparator relation of `(a, b) => a.order - b.order`. -/
def chapterLE (a b : Chapter) : Prop := a.order ≤ b.order

instance : DecidableRel chapterLE := fun a b => Int.decLe a.order b.order

instance : IsTotal Chapter chapterLE := ⟨fun a b => Int.le_total a.order b.order⟩

instance : IsTrans Chapter chapterLE := ⟨fun _ _ _ h1 h2 => Int.le_trans h1 h2⟩

/-- JS `[...chapters].sort((a, b) => a.order - b.order)`: a stable
ascending sort by `order`, modelled by stable insertion sort. -/
def sortChapters (l : List Chapter) : List Chapter :=
  List.insertionSort chapterLE l

/-! ### Template resolver (`parseTemplate`, Editor.tsx 319-366) -/

/-- Stage 1: `result.replace(/{pov}/g, currentBook.pov || '3rd Person Omniscient')`
— a string replacement, so JS interprets `$` patterns in the pov value. -/
def stagePov (b : Book) (s : String) : String :=
  replaceAllJS s "{pov}" (if b.pov = "" then "3rd Person Omniscient" else b.pov)

/-- Stage 2: `result.replace(/{tense}/g, currentBook.tense || 'Past Tense')`
— a string replacement, so JS interprets `$` patterns in the tense value. -/
def stageTense (b : Book) (s : String) : String :=
  replaceAllJS s "{tense}" (if b.tense = "" then "Past Tense" else b.tense)

/-- Stage 3: `result.replace(/{currentChapter}/g, currentChapter ? currentChapter.content : '')`
— a string replacement, so JS interprets `$` patterns in the content. -/
def stageCurrent (c : Option Chapter) (s : String) : String :=
  replaceAllJS s "{currentChapter}" (match c with | some ch => ch.content | none => "")

/-- Replacement callback of the `{lastWords:N}` stage: the last `n`
whitespace tokens of the focus chapter's trimmed content, joined by
single spaces; empty when there is no focus chapter, when `n = 0`, or
when the content has no tokens. -/
def lastWordsText (c : Option Chapter) (digits : List Char) : String :=
  match c with
  | none => ""
  | some ch =>
    let n := digitsVal digits
    if n = 0 then ""
    else
      let ws := splitWs (jsTrim ch.content)
      if ws.isEmpty then ""
      else String.intercalate " " (ws.drop (ws.length - n))

/-- Stage 4: `result.replace(/{lastWords:(\d+)}/g, ...)`. -/
def stageLastWords (c : Option Chapter) (s : String) : String :=
  ⟨replaceNumArg "lastWords".data (fun d => (lastWordsText c d).data) s.data⟩

/-- Replacement callback of the `{chapterSummary:N}` stage: the summary
of the `n`-th chapter (1-based) of the stable order-sorted chapter list,
with the `Chapter not found` / `No summary available` fallbacks, and
empty for `n = 0`. -/
def chapterSummaryText (b : Book) (digits : List Char) : String :=
  let n := digitsVal digits
  if n = 0 then ""
  else
    match (sortChapters b.chapters).get? (n - 1) with
    | some ch => if ch.summary = "" then "No summary available" else ch.summary
    | none => "Chapter not found"

/-- Stage 5: `result.replace(/{chapterSummary:(\d+)}/g, ...)`. -/
def stageChapterSummary (b : Book) (s : String) : String :=
  ⟨replaceNumArg "chapterSummary".data (fun d => (chapterSummaryText b d).data) s.data⟩

/-- Replacement text of the `{storySoFar}` stage (Editor.tsx 356-363):
previous chapters of the order-sorted list rendered `[title]: summary`
and joined by blank lines, with the cutoff `order` taken from the focus
chapter (or one past the last sorted chapter when there is none). -/
def storySoFarText (b : Book) (c : Option Chapter) : String :=
  let sorted := sortChapters b.chapters
  let currentOrder : Int :=
    match c with
    | some ch => ch.order
    | none => match sorted.getLast? with
      | some last => last.order + 1
      | none => 0
  let prev := sorted.filter (fun ch => ch.order < currentOrder)
  if prev.isEmpty then "No previous story context."
  else
    String.intercalate "\n\n"
      (prev.map (fun ch =>
        "[" ++ ch.title ++ "]: " ++ (if ch.summary = "" then "No summary" else ch.summary)))

/-- Stage 6: `result.replace(/{storySoFar}/g, () => ...)`. -/
def stageStorySoFar (b : Book) (c : Option Chapter) (s : String) : String :=
  replaceAllS s "{storySoFar}" (storySoFarText b c)

/-- The template resolver `parseTemplate(text, currentBook, currentChapter)`
(Editor.tsx 319-366): the six substitution stages applied in the source's
fixed order, each a global replace over the result of the previous stage. -/
def parseTemplate (text : String) (b : Book) (c : Option Chapter) : String :=
  stageStorySoFar b c
    (stageChapterSummary b
      (stageLastWords c
        (stageCurrent c
          (stageTense b
            (stagePov b text)))))

/-! ### Relevance selection (generateStory, Editor.tsx 898-938) -/

/-- Codex relevance predicate (Editor.tsx 899-902):
`item.isGlobal || item.tags.some(tag => activePrompt.toLowerCase().includes(tag.toLowerCase()))`. -/
def codexMatches (prompt : String) (item : CodexItem) : Bool :=
  item.isGlobal || item.tags.any (fun tag => strIncludes (lowerStr prompt) (lowerStr tag))

/-- The `relevantCodex` filter of `generateStory`. -/
def selectCodex (prompt : String) (codex : List CodexItem) : List CodexItem :=
  codex.filter (codexMatches prompt)

/-- `hasAliasMatch(text, char)` (Editor.tsx 910-912):
`char.aliases.some(alias => text.toLowerCase().includes(alias.toLowerCase()))`. -/
def hasAliasMatch (text : String) (c : Character) : Bool :=
  c.aliases.any (fun a => strIncludes (lowerStr text) (lowerStr a))

/-- Initial scan of `generateStory` (Editor.tsx 915-922): walk `allChars`
in order, include a character when it is global or alias-matches the
prompt and its id has not been included yet; `ids` is the accumulated
`includedCharIds` set. -/
def seedScan (prompt : String) : List Character → List String → List Character
  | [], _ => []
  | c :: rest, ids =>
    if (c.isGlobal || hasAliasMatch prompt c) && !ids.contains c.id then
      c :: seedScan prompt rest (c.id :: ids)
    else
      seedScan prompt rest ids

/-- One description scan of the chain loop (the inner `for` of
Editor.tsx 930-937) presented over the list of not-yet-included
candidates: returns the newly matched characters (in candidate order)
and the candidates that stay pending. A match removes every later
same-id entry from the pending list, mirroring the permanent
`includedCharIds.add`. -/
def scanDesc (desc : String) : List Character → List Character × List Character
  | [] => ([], [])
  | cand :: rest =>
    if hasAliasMatch desc cand then
      let p := scanDesc desc (rest.filter (fun x => x.id ≠ cand.id))
      (cand :: p.1, p.2)
    else
      let p := scanDesc desc rest
      (p.1, cand :: p.2)
termination_by l => l.length
decreasing_by
  · have := List.length_filter_le (fun x => x.id ≠ cand.id) rest
    simp only [List.length_cons]
    omega
  · simp

/-- Combined size bound for `scanDesc` (a definition of proof type so
that it can precede the definitions whose termination argument uses
it). -/
def scanDesc_length (desc : String) :
    ∀ l : List Character,
      (scanDesc desc l).1.length + (scanDesc desc l).2.length ≤ l.length := by
  intro l
  induction l using scanDesc.induct desc with
  | case1 => simp [scanDesc]
  | case2 cand rest h ih =>
    have hf := List.length_filter_le (fun x => x.id ≠ cand.id) rest
    simp only [scanDesc, if_pos h, List.length_cons]
    omega
  | case3 cand rest h ih =>
    simp only [scanDesc, if_neg h, List.length_cons]
    omega

/-- The chain-scan `while` loop of `generateStory` (Editor.tsx 925-938):
`queue` holds the already-included characters not yet processed (the
`relevantChars` suffix from index `i` on) and `remaining` the candidates
whose id is not yet included. Characters with an empty description are
dequeued without scanning. The returned list is the processing order,
i.e. the final `relevantChars` when started on the seed queue. -/
def chainScan : List Character → List Character → List Character
  | [], _ => []
  | c :: queue, remaining =>
    if c.description = "" then
      c :: chainScan queue remaining
    else
      let p := scanDesc c.description remaining
      c :: chainScan (queue ++ p.1)
        (p.2.filter (fun x => !(p.1.map (fun y => y.id)).contains x.id))
termination_by queue remaining => queue.length + 2 * remaining.length
decreasing_by
  · simp only [List.length_cons]
    omega
  · have h1 := scanDesc_length c.description remaining
    have h2 := List.length_filter_le
      (fun x => !((scanDesc c.description remaining).1.map (fun y => y.id)).contains x.id)
      (scanDesc c.description remaining).2
    simp only [List.length_cons, List.length_append]
    omega

/-- Character selection of `generateStory` (seed scan followed by the
chain scan), returning the final `relevantChars` in inclusion order. -/
def selectCharacters (allChars : List Character) (prompt : String) : List Character :=
  let seed := seedScan prompt allChars []
  let seedIds := seed.map (fun c => c.id)
  chainScan seed (allChars.filter (fun c => !seedIds.contains c.id))

/-- Modelled from the claim's wording: the breadth-first closure in
which EVERY already-included character's description text (the empty
description included) is scanned, in inclusion order, for aliases of
not-yet-included characters, appending matches to the end of the queue. -/
def chainScanSpec : List Character → List Character → List Character
  | [], _ => []
  | c :: queue, remaining =>
    let p := scanDesc c.description remaining
    c :: chainScanSpec (queue ++ p.1)
      (p.2.filter (fun x => !(p.1.map (fun y => y.id)).contains x.id))
termination_by queue remaining => queue.length + 2 * remaining.length
decreasing_by
  have h1 := scanDesc_length c.description remaining
  have h2 := List.length_filter_le
    (fun x => !((scanDesc c.description remaining).1.map (fun y => y.id)).contains x.id)
    (scanDesc c.description remaining).2
  simp only [List.length_cons, List.length_append]
  omega

/-- Modelled from the claim's wording: the breadth-first transitive
closure of the seed set (global characters plus prompt alias matches),
in discovery order. -/
def selectCharactersSpec (allChars : List Character) (prompt : String) : List Character :=
  let seed := seedScan prompt allChars []
  let seedIds := seed.map (fun c => c.id)
  chainScanSpec seed (allChars.filter (fun c => !seedIds.contains c.id))

/-! ### detectCharacters (Editor.tsx 626-648) -/

/-- JS regex word-character class `\w` = `[A-Za-z0-9_]`. -/
def isWordChar (c : Char) : Bool :=
  c.isAlphanum || c = '_'

/-- Word-boundary test `\b` between an optional left character and an
optional right character (out-of-range counts as non-word). -/
def boundaryB (l r : Option Char) : Bool :=
  (match l with | some c => isWordChar c | none => false) !=
    (match r with | some c => isWordChar c | none => false)

/-- Case-insensitive literal prefix test (ASCII case folding, as in a
JS `i`-flag regex over an escaped-literal pattern). -/
def ciPrefix : List Char → List Char → Bool
  | [], _ => true
  | _ :: _, [] => false
  | p :: ps, h :: hs => (p.toLower = h.toLower) && ciPrefix ps hs

/-- Match of the pattern `\b` ++ literal ++ `\b` at the current position:
`prev` is the text character just before the position, `rest` the text
from the position on. -/
def wbHere (trigger : List Char) (prev : Option Char) (rest : List Char) : Bool :=
  boundaryB prev rest.head? &&
    ciPrefix trigger rest &&
    boundaryB (rest.get? (trigger.length - 1)) (rest.get? trigger.length)

/-- `new RegExp('\\b' + escaped + '\\b', 'i').test(text)`: the escaped
pattern is the literal trigger (every regex metacharacter
`. * + ? ^ $ { } ( ) | [ ] \` is escaped by
`trigger.replace(/[.*+?^${}()|[\]\\]/g, '\\$&')`), so the test scans the
text for a word-boundary-delimited case-insensitive literal occurrence. -/
def wbScan (trigger : List Char) : Option Char → List Char → Bool
  | prev, rest =>
    wbHere trigger prev rest ||
      match rest with
      | [] => false
      | c :: t => wbScan trigger (some c) t

/-- Trigger list of a character in `detectCharacters`:
`[char.name, ...char.aliases].filter(t => t && t.trim().length > 0)`. -/
def charTriggers (c : Character) : List String :=
  (c.name :: c.aliases).filter (fun t => t ≠ "" && jsTrim t ≠ "")

/-- Per-character match of `detectCharacters`: some trigger matches the
word-boundary pattern. (With every metacharacter escaped the pattern
always compiles, so the literal-substring `catch` fallback of the source
is unreachable and the compiled-pattern semantics is the whole
behaviour.) -/
def detectMatch (text : String) (c : Character) : Bool :=
  (charTriggers c).any (fun tr => wbScan tr.data none text.data)

/-- Insertion-ordered map update (`Map.set`): an existing key keeps its
position and gets the new value, a new key is appended. -/
def mapSet (m : List (String × Character)) (k : String) (v : Character) :
    List (String × Character) :=
  if m.any (fun p => p.1 = k) then
    m.map (fun p => if p.1 = k then (k, v) else p)
  else m ++ [(k, v)]

/-- `detectCharacters(text)` (Editor.tsx 626-648): the characters whose
name or alias matches, deduplicated by id in first-match order. -/
def detectCharacters (chars : List Character) (text : String) : List Character :=
  (chars.foldl (fun m c => if detectMatch text c then mapSet m c.id c else m) []).map
    (fun p => p.2)

/-! ### Story-generation cancellation (Editor.tsx 872-1052) -/

/-- Mutable editor state touched by `generateStory`: the active
chapter's content, the error banner, and the in-flight flag. -/
structure GenState where
  content : String
  errorState : Option String
  isGenerating : Bool
deriving DecidableEq, Repr

/-- Outcome of the awaited completion call inside `generateStory`'s
`try`: a result text, an `AbortError` rejection (cancellation), or a
genuine failure. -/
inductive LLMOutcome where
  | success (text : String)
  | aborted
  | failure (msg : String)
deriving DecidableEq, Repr

/-- State transition of one `generateStory` run around the completion
call (Editor.tsx 895-896 and 1009-1044): before the call the error
state is cleared and the in-flight flag set; on success the result is
appended to the chapter content (with a blank-line separator when both
sides are nonempty); on `AbortError` the `catch` returns without
touching content or error state; on failure `handleError` stores the
message; the `finally` clears the in-flight flag. -/
def generateStoryRun (outcome : LLMOutcome) (s : GenState) : GenState :=
  let s1 : GenState := { s with errorState := none, isGenerating := true }
  let s2 : GenState :=
    match outcome with
    | .success r =>
      { s1 with content :=
          s1.content ++ (if s1.content ≠ "" && r ≠ "" then "\n\n" else "") ++ r }
    | .aborted => s1
    | .failure m => { s1 with errorState := some m }
  { s2 with isGenerating := false }

/-- `cancelStoryGeneration` (Editor.tsx 1047-1052): aborts the
controller and clears the in-flight flag; chapter content and error
state are not touched. -/
def cancelStoryGeneration (s : GenState) : GenState :=
  { s with isGenerating := false }

/-! ### JSON values and a strict `JSON.parse` model -/

/-- JSON values; numeric literals are kept as lexemes since no claim
depends on float arithmetic. -/
inductive Json where
  | null
  | bool (b : Bool)
  | num (lex : List Char)
  | str (s : List Char)
  | arr (elems : List Json)
  | obj (fields : List (List Char × Json))

/-- JSON insignificant whitespace. -/
def jsonWs (c : Char) : Bool :=
  c = ' ' || c = '\t' || c = '\n' || c = '\r'

/-- Strip a literal leading run from a character list. -/
def chopLead : List Char → List Char → Option (List Char)
  | [], l => some l
  | _ :: _, [] => none
  | p :: ps, c :: cs => if p = c then chopLead ps cs else none

/-- Hexadecimal digit value. -/
def hexVal? (c : Char) : Option Nat :=
  if '0' ≤ c ∧ c ≤ '9' then some (c.toNat - '0'.toNat)
  else if 'a' ≤ c ∧ c ≤ 'f' then some (c.toNat - 'a'.toNat + 10)
  else if 'A' ≤ c ∧ c ≤ 'F' then some (c.toNat - 'A'.toNat + 10)
  else none

/-- Decode one JSON string escape (the characters after the backslash);
returns the decoded characters and the rest. -/
def escChars? : List Char → Option (List Char × List Char)
  | [] => none
  | e :: t =>
    if e = '"' then some (['"'], t)
    else if e = '\\' then some (['\\'], t)
    else if e = '/' then some (['/'], t)
    else if e = 'b' then some (['\x08'], t)
    else if e = 'f' then some (['\x0c'], t)
    else if e = 'n' then some (['\n'], t)
    else if e = 'r' then some (['\r'], t)
    else if e = 't' then some (['\t'], t)
    else if e = 'u' then
      match t with
      | a :: b :: c :: d :: t2 =>
        match hexVal? a, hexVal? b, hexVal? c, hexVal? d with
        | some x, some y, some z, some w =>
          some ([Char.ofNat (((x * 16 + y) * 16 + z) * 16 + w)], t2)
        | _, _, _, _ => none
      | _ => none
    else none

/-- JSON number lexeme: `-? (0 | [1-9][0-9]*) (. [0-9]+)? ([eE][+-]?[0-9]+)?`. -/
def parseNumLex (l : List Char) : Option (List Char × List Char) :=
  let sign : List Char × List Char :=
    match l with
    | '-' :: t => (['-'], t)
    | _ => ([], l)
  match sign.2 with
  | [] => none
  | c :: t =>
    if ¬ c.isDigit then none
    else
      let intPart : List Char × List Char :=
        if c = '0' then (['0'], t)
        else (c :: t.takeWhile Char.isDigit, t.drop (t.takeWhile Char.isDigit).length)
      let fr : Option (List Char × List Char) :=
        match intPart.2 with
        | '.' :: t2 =>
          let ds := t2.takeWhile Char.isDigit
          if ds.isEmpty then none else some ('.' :: ds, t2.drop ds.length)
        | _ => some ([], intPart.2)
      match fr with
      | none => none
      | some (fchars, afterF) =>
        let ex : Option (List Char × List Char) :=
          match afterF with
          | e :: t3 =>
            if e = 'e' ∨ e = 'E' then
              let signedTail : List Char × List Char :=
                match t3 with
                | '+' :: t5 => (['+'], t5)
                | '-' :: t5 => (['-'], t5)
                | _ => ([], t3)
              let ds := signedTail.2.takeWhile Char.isDigit
              if ds.isEmpty then none
              else some (e :: signedTail.1 ++ ds, signedTail.2.drop ds.length)
            else some ([], afterF)
          | [] => some ([], afterF)
        match ex with
        | none => none
        | some (echars, rest) => some (sign.1 ++ intPart.1 ++ fchars ++ echars, rest)

mutual

/-- Fuel-driven strict JSON value parser (models `JSON.parse`; the fuel
is a recursion budget only, always amply provided by `jsonParseL`). -/
def parseJValue : Nat → List Char → Option (Json × List Char)
  | 0, _ => none
  | Nat.succ fuel, l =>
    match l.dropWhile jsonWs with
    | [] => none
    | c :: t =>
      if c = '"' then
        match parseJString fuel t with
        | some (s, r) => some (Json.str s, r)
        | none => none
      else if c = '[' then
        match t.dropWhile jsonWs with
        | ']' :: r => some (Json.arr [], r)
        | _ => parseJElems fuel t []
      else if c = '{' then
        match t.dropWhile jsonWs with
        | '}' :: r => some (Json.obj [], r)
        | _ => parseJFields fuel t []
      else if c = 't' then
        match chopLead "rue".data t with
        | some r => some (Json.bool true, r)
        | none => none
      else if c = 'f' then
        match chopLead "alse".data t with
        | some r => some (Json.bool false, r)
        | none => none
      else if c = 'n' then
        match chopLead "ull".data t with
        | some r => some (Json.null, r)
        | none => none
      else
        match parseNumLex (c :: t) with
        | some (lex, r) => some (Json.num lex, r)
        | none => none

/-- Comma-separated array elements after `[` (nonempty case). -/
def parseJElems : Nat → List Char → List Json → Option (Json × List Char)
  | 0, _, _ => none
  | Nat.succ fuel, l, acc =>
    match parseJValue fuel l with
    | none => none
    | some (v, r) =>
      match r.dropWhile jsonWs with
      | ',' :: r2 => parseJElems fuel r2 (v :: acc)
      | ']' :: r2 => some (Json.arr (v :: acc).reverse, r2)
      | _ => none

/-- Comma-separated object members after `{` (nonempty case). -/
def parseJFields : Nat → List Char → List (List Char × Json) → Option (Json × List Char)
  | 0, _, _ => none
  | Nat.succ fuel, l, acc =>
    match l.dropWhile jsonWs with
    | '"' :: t =>
      match parseJString fuel t with
      | none => none
      | some (k, r) =>
        match r.dropWhile jsonWs with
        | ':' :: r2 =>
          match parseJValue fuel r2 with
          | none => none
          | some (v, r3) =>
            match r3.dropWhile jsonWs with
            | ',' :: r4 => parseJFields fuel r4 ((k, v) :: acc)
            | '}' :: r4 => some (Json.obj ((k, v) :: acc).reverse, r4)
            | _ => none
        | _ => none
    | _ => none

/-- JSON string body after the opening quote: decodes escapes, rejects
raw control characters, stops at the closing quote. -/
def parseJString : Nat → List Char → Option (List Char × List Char)
  | 0, _ => none
  | Nat.succ fuel, l =>
    match l with
    | [] => none
    | c :: t =>
      if c = '"' then some ([], t)
      else if c = '\\' then
        match escChars? t with
        | none => none
        | some (d, r) =>
          match parseJString fuel r with
          | some (s, r2) => some (d ++ s, r2)
          | none => none
      else if c.toNat < 0x20 then none
      else
        match parseJString fuel t with
        | some (s, r) => some (c :: s, r)
        | none => none

end

/-- `JSON.parse` on a character list: one value, then only trailing
whitespace. -/
def jsonParseL (l : List Char) : Option Json :=
  match parseJValue (4 * l.length + 8) l with
  | some (v, rest) => if (rest.dropWhile jsonWs).isEmpty then some v else none
  | none => none

/-- JS property read `obj[k]` for parsed JSON: only objects expose
fields; a duplicated key keeps the last value (as `JSON.parse` does). -/
def getField (j : Json) (k : List Char) : Option Json :=
  match j with
  | Json.obj fs => ((fs.filter (fun p => p.1 = k)).map (fun p => p.2)).getLast?
  | _ => none

/-- Zero test on a JSON number lexeme (mantissa digits all zero). -/
def isZeroLex (lex : List Char) : Bool :=
  (lex.takeWhile (fun c => c ≠ 'e' && c ≠ 'E')).all (fun c => !c.isDigit || c = '0')

/-- JS truthiness of a parsed JSON value. -/
def jsTruthy : Json → Bool
  | .null => false
  | .bool b => b
  | .str s => !s.isEmpty
  | .num lex => !isZeroLex lex
  | .arr _ => true
  | .obj _ => true

/-! ### Suggestion-response parsing cascade (Editor.tsx 735-793) -/

/-- Index of the first occurrence of a character. -/
def firstIdxOf (c : Char) : List Char → Option Nat
  | [] => none
  | x :: t => if x = c then some 0 else (firstIdxOf c t).map (· + 1)

/-- Index of the last occurrence of a character. -/
def lastIdxOf (c : Char) (l : List Char) : Option Nat :=
  (firstIdxOf c l.reverse).map (fun i => l.length - 1 - i)

/-- The match of `cleanText.match(/\[[\s\S]*\]/)`: the slice from the
first `[` to the last `]`, when the latter comes after the former. -/
def arraySlice (clean : List Char) : Option (List Char) :=
  match firstIdxOf '[' clean, lastIdxOf ']' clean with
  | some i, some j => if i < j then some ((clean.drop i).take (j - i + 1)) else none
  | _, _ => none

/-- Strategy 1 (Editor.tsx 739-746): parse the bracket slice of the
trimmed text as JSON; any failure, or a non-array result, yields no
records. -/
def strat1 (clean : List Char) : List Json :=
  match arraySlice clean with
  | some slice =>
    match jsonParseL slice with
    | some (Json.arr xs) => xs
    | _ => []
  | none => []

/-- ECMAScript line terminators (not matched by `.`). -/
def isLineTerm (c : Char) : Bool :=
  c = '\n' || c = '\r' || c.toNat = 0x2028 || c.toNat = 0x2029

/-- Greedy capture of `((?:[^"\\]|\\.)*)"`: raw capture text up to the
closing quote, where a backslash must be followed by a non-line-
terminator (both characters enter the capture raw). -/
def captureLoop : List Char → Option (List Char × List Char)
  | [] => none
  | c :: t =>
    if c = '"' then some ([], t)
    else if c = '\\' then
      match t with
      | [] => none
      | d :: t2 =>
        if isLineTerm d then none
        else
          match captureLoop t2 with
          | some (cap, r) => some (c :: d :: cap, r)
          | none => none
    else
      match captureLoop t with
      | some (cap, r) => some (c :: cap, r)
      | none => none

/-- Attempt of the field regex `"key"\s*:\s*"((?:[^"\\]|\\.)*)"` at the
current position. -/
def matchFieldAt (key : List Char) (l : List Char) : Option (List Char × List Char) :=
  match chopLead ('"' :: (key ++ ['"'])) l with
  | none => none
  | some r1 =>
    match r1.dropWhile isWsChar with
    | ':' :: r3 =>
      match r3.dropWhile isWsChar with
      | '"' :: r5 => captureLoop r5
      | _ => none
    | _ => none

/-- Global scan of `regex.exec` in a `while` loop, with a skip counter:
collect the captures of every non-overlapping match, resuming after
each match (the rest returned by `matchFieldAt` is the text suffix of
the corresponding length). -/
def fieldScanAux (key : List Char) : List Char → Nat → List (List Char)
  | [], _ => []
  | _ :: t, Nat.succ k => fieldScanAux key t k
  | c :: t, 0 =>
    match matchFieldAt key (c :: t) with
    | some p => p.1 :: fieldScanAux key t ((c :: t).length - p.2.length - 1)
    | none => fieldScanAux key t 0

/-- All captures of the field regex over a text. -/
def fieldScan (key l : List Char) : List (List Char) :=
  fieldScanAux key l 0

/-- Field name of the summary capture regex. -/
def sumKey : List Char := "suggestionSummary".data

/-- Field name of the description capture regex. -/
def descKey : List Char := "suggestionDescription".data

/-- `JSON.parse` of a double-quoted literal rebuilt around a capture
(`JSON.parse('"' + s + '"')`): the capture must decode completely as a
JSON string body. -/
def decodeField (s : List Char) : Option (List Char) :=
  match parseJString (s.length + 2) (s ++ ['"']) with
  | some (content, []) => some content
  | _ => none

/-- Build one fallback record (Editor.tsx 764-776): decode summary and
description as JSON string literals, falling back to the raw capture
text (and `descriptions[i] || ""`) when either decode fails; a missing
or empty description capture yields the empty description. -/
def mkRecord (s : List Char) (d : Option (List Char)) : Json :=
  let attempt : Option (List Char × List Char) :=
    match decodeField s with
    | none => none
    | some sv =>
      match d with
      | some dc =>
        if dc.isEmpty then some (sv, [])
        else
          match decodeField dc with
          | some dv => some (sv, dv)
          | none => none
      | none => some (sv, [])
  match attempt with
  | some p => Json.obj [(sumKey, Json.str p.1), (descKey, Json.str p.2)]
  | none =>
    Json.obj
      [(sumKey, Json.str s),
        (descKey, Json.str (match d with | some dc => dc | none => []))]

/-- Positional zip of summary captures with description captures. -/
def zipRecords : List (List Char) → List (List Char) → List Json
  | [], _ => []
  | s :: ss, ds => mkRecord s ds.head? :: zipRecords ss ds.tail

/-- Strategy 2 (Editor.tsx 748-778): paired field-level captures over
the raw (untrimmed) response text, zipped positionally; yields records
only when at least one summary capture exists. -/
def strat2 (raw : String) : List Json :=
  let summaries := fieldScan sumKey raw.data
  let descriptions := fieldScan descKey raw.data
  if summaries.isEmpty then [] else zipRecords summaries descriptions

/-- Strategy 3 (Editor.tsx 780-789): parse the entire trimmed text as a
single JSON value; a value exposing a truthy `suggestionSummary`
property becomes a one-element batch. -/
def strat3 (clean : List Char) : List Json :=
  match jsonParseL clean with
  | some v =>
    match getField v sumKey with
    | some f => if jsTruthy f then [v] else []
    | none => []
  | none => []

/-- The dedicated parse-failure message (Editor.tsx 792). -/
def errFailMsg : String := "Failed to parse suggestions from LLM response."

/-- The suggestion-response parsing pipeline of
`handleGenerateSuggestions` (Editor.tsx 735-793): strategy 1 on the
trimmed text, then — whenever `parsedData` is still empty — strategy 2
on the raw text, then strategy 3 on the trimmed text, and finally the
dedicated error when no strategy produced records. -/
def parseSuggestions (responseText : String) : Except String (List Json) :=
  let cleanText := jsTrimL responseText.data
  let d1 := strat1 cleanText
  let d2 := if d1.isEmpty then strat2 responseText else d1
  let d3 := if d2.isEmpty then strat3 cleanText else d2
  if d3.isEmpty then Except.error errFailMsg else Except.ok d3

/-! ### Concrete instances used by example clauses and witnesses -/

/-- Non-global codex item with the single tag `dragon`. -/
def demoDragonItem : CodexItem :=
  { id := "cx1", title := "Dragons", content := "Fire-breathing lore", tags := ["dragon"],
    isGlobal := false }

/-- Non-global character whose alias list contains the empty string. -/
def demoGhost : Character :=
  { id := "ghost", name := "Ghost", aliases := [""], description := "", isGlobal := false }

/-- Character A of the chaining example: alias `Al`, description
mentioning `Bea`. -/
def demoA : Character :=
  { id := "a", name := "Alice", aliases := ["Al"], description := "friend of Bea",
    isGlobal := false }

/-- Character B of the chaining example: alias `Bea`, no description. -/
def demoB : Character :=
  { id := "b", name := "Beatrice", aliases := ["Bea"], description := "", isGlobal := false }

/-- Global character X of the cycle example: description mentions Y. -/
def demoX : Character :=
  { id := "x", name := "Xan", aliases := ["Xa"], description := "knows Ya", isGlobal := true }

/-- Non-global character Y of the cycle example: description mentions X. -/
def demoY : Character :=
  { id := "y", name := "Yor", aliases := ["Ya"], description := "knows Xa", isGlobal := false }

/-- Character whose name and only alias are literally `A.J.`. -/
def demoAJ : Character :=
  { id := "aj", name := "A.J.", aliases := ["A.J."], description := "", isGlobal := false }

/-- Book with no chapters and empty pov/tense labels. -/
def demoEmptyBook : Book :=
  { id := "bk0", title := "Demo", chapters := [], codex := [], characters := [],
    pov := "", tense := "" }

/-- Book whose pov label is itself the `{tense}` placeholder. -/
def demoBookPovTense : Book :=
  { demoEmptyBook with pov := "{tense}", tense := "T" }

/-- Book whose tense label is itself the `{pov}` placeholder. -/
def demoBookTensePov : Book :=
  { demoEmptyBook with tense := "{pov}" }

/-- Two-chapter book: chapter one with a summary, chapter two without. -/
def demoBookTwoChapters : Book :=
  { demoEmptyBook with chapters :=
      [ { id := "c2", title := "Two", summary := "", content := "later words here", order := 1 },
        { id := "c1", title := "One", summary := "It began.", content := "first words", order := 0 } ] }

/-! ### General lemmas -/

/-- Substring testing agrees with `List.IsInfix`. -/
theorem containsSubList_infix_iff (needle hay : List Char) :
    containsSubList needle hay = true ↔ needle <:+: hay := by
  induction hay with
  | nil => simp [containsSubList, List.isEmpty_iff]
  | cons c t ih =>
    simp only [containsSubList, Bool.or_eq_true, List.isPrefixOf_iff_prefix, ih,
      List.infix_cons_iff]

/-- The empty needle occurs in every haystack. -/
theorem containsSubList_nil_left (l : List Char) : containsSubList [] l = true := by
  cases l with
  | nil => rfl
  | cons c t => simp [containsSubList, List.isPrefixOf]

/-- A nonempty needle whose head is absent from the haystack never occurs. -/
theorem containsSubList_false_of_head_notin (n0 : Char) (ns l : List Char)
    (h : n0 ∉ l) : containsSubList (n0 :: ns) l = false := by
  induction l with
  | nil => rfl
  | cons c t ih =>
    have hne : n0 ≠ c := fun he => h (he ▸ List.mem_cons_self c t)
    have hnt : n0 ∉ t := fun hm => h (List.mem_cons_of_mem c hm)
    simp only [containsSubList, List.isPrefixOf, Bool.or_eq_false_iff]
    refine ⟨?_, ih hnt⟩
    simp [hne]

/-- With the skip counter at least the text length the scanner drops
everything. -/
theorem replaceAllAux_skip_all (pat rep : List Char) :
    ∀ (t : List Char) (k : Nat), t.length ≤ k → replaceAllAux pat rep t k = [] := by
  intro t
  induction t with
  | nil => intro k _; cases k <;> rfl
  | cons c t' ih =>
    intro k hk
    cases k with
    | zero => simp at hk
    | succ k' =>
      simp only [replaceAllAux]
      exact ih k' (by simpa using hk)

/-- A text not containing the pattern is left unchanged. -/
theorem replaceAllAux_id (pat rep : List Char) :
    ∀ l : List Char, containsSubList pat l = false → replaceAllAux pat rep l 0 = l := by
  intro l
  induction l with
  | nil => intro _; rfl
  | cons c t ih =>
    intro h
    simp only [containsSubList, Bool.or_eq_false_iff] at h
    simp only [replaceAllAux, if_neg (fun hc : pat ≠ [] ∧ pat.isPrefixOf (c :: t) = true =>
      by simp [hc.2] at h)]
    rw [ih h.2]

/-- A text consisting of exactly the pattern is replaced by exactly the
replacement. -/
theorem replaceAllAux_self (pat rep : List Char) (hne : pat ≠ []) :
    replaceAllAux pat rep pat 0 = rep := by
  cases pat with
  | nil => exact absurd rfl hne
  | cons p ps =>
    have hpre : (p :: ps).isPrefixOf (p :: ps) = true :=
      List.isPrefixOf_iff_prefix.mpr (List.prefix_refl _)
    simp only [replaceAllAux, if_pos (And.intro hne hpre)]
    rw [replaceAllAux_skip_all _ _ ps ((p :: ps).length - 1) (by simp)]
    simp

/-- A replacement without a dollar character is inserted verbatim even
by the `$`-interpreting substitution. -/
theorem expandRep_no_dollar (m bf af : List Char) :
    ∀ rep : List Char, '$' ∉ rep → expandRep m bf af rep = rep := by
  intro rep
  induction rep with
  | nil => intro _; rfl
  | cons c t ih =>
    intro h
    have hc : c ≠ '$' := fun he => h (he ▸ List.mem_cons_self c t)
    have ht : '$' ∉ t := fun hm => h (List.mem_cons_of_mem c hm)
    have hstep : expandRep m bf af (c :: t) = c :: expandRep m bf af t := by
      rw [expandRep.eq_def]
      dsimp only
      rw [if_neg hc]
    rw [hstep, ih ht]

/-- With the skip counter at least the text length the `$`-aware
scanner drops everything. -/
theorem replaceAllJSAux_skip_all (pat rep : List Char) :
    ∀ (t : List Char) (k : Nat) (seen : List Char),
      t.length ≤ k → replaceAllJSAux pat rep t k seen = [] := by
  intro t
  induction t with
  | nil => intro k seen _; cases k <;> rfl
  | cons c t' ih =>
    intro k seen hk
    cases k with
    | zero => simp at hk
    | succ k' =>
      simp only [replaceAllJSAux]
      exact ih k' (c :: seen) (by simpa using hk)

/-- A text not containing the pattern is left unchanged by the
`$`-aware replace, whatever was already scanned. -/
theorem replaceAllJSAux_id (pat rep : List Char) :
    ∀ l : List Char, containsSubList pat l = false →
      ∀ seen : List Char, replaceAllJSAux pat rep l 0 seen = l := by
  intro l
  induction l with
  | nil => intro _ seen; rfl
  | cons c t ih =>
    intro h seen
    simp only [containsSubList, Bool.or_eq_false_iff] at h
    simp only [replaceAllJSAux, if_neg (fun hc : pat ≠ [] ∧ pat.isPrefixOf (c :: t) = true =>
      by simp [hc.2] at h)]
    rw [ih h.2 (c :: seen)]

/-- A text consisting of exactly the pattern is replaced by exactly the
`$`-expanded replacement (with empty surrounding context). -/
theorem replaceAllJS_self (pat rep : List Char) (hne : pat ≠ []) :
    replaceAllJSAux pat rep pat 0 [] = expandRep pat [] [] rep := by
  cases pat with
  | nil => exact absurd rfl hne
  | cons p ps =>
    have hpre : (p :: ps).isPrefixOf (p :: ps) = true :=
      List.isPrefixOf_iff_prefix.mpr (List.prefix_refl _)
    simp only [replaceAllJSAux, if_pos (And.intro hne hpre)]
    rw [replaceAllJSAux_skip_all _ _ ps ((p :: ps).length - 1) (p :: []) (by simp)]
    rw [List.append_nil, List.reverse_nil, List.drop_length]

/-- Skip-all lemma for the `{key:(\d+)}` scanner. -/
theorem replaceNumArgAux_skip_all (key : List Char) (f : List Char → List Char) :
    ∀ (t : List Char) (k : Nat), t.length ≤ k → replaceNumArgAux key f t k = [] := by
  intro t
  induction t with
  | nil => intro k _; cases k <;> rfl
  | cons c t' ih =>
    intro k hk
    cases k with
    | zero => simp at hk
    | succ k' =>
      simp only [replaceNumArgAux]
      exact ih k' (by simpa using hk)

/-- A text not containing `'{' ++ key ++ ':'` is left unchanged by the
`{key:(\d+)}` scanner, whatever the replacement callback. -/
theorem replaceNumArgAux_id (key : List Char) (f : List Char → List Char) :
    ∀ l : List Char,
      containsSubList ('{' :: key ++ [':']) l = false → replaceNumArgAux key f l 0 = l := by
  intro l
  induction l with
  | nil => intro _; rfl
  | cons c t ih =>
    intro h
    simp only [containsSubList, Bool.or_eq_false_iff] at h
    simp only [replaceNumArgAux, h.1, Bool.false_eq_true, if_false]
    rw [ih h.2]

/-- All-digit prefix followed by a non-digit splits `takeWhile`. -/
theorem takeWhile_digits_append (ds : List Char) (hd : ∀ c ∈ ds, c.isDigit = true)
    (r : List Char) (x : Char) (hx : x.isDigit = false) :
    (ds ++ x :: r).takeWhile Char.isDigit = ds := by
  induction ds with
  | nil => simp [List.takeWhile, hx]
  | cons d t ih =>
    have h1 : d.isDigit = true := hd d (List.mem_cons_self d t)
    have h2 : ∀ c ∈ t, c.isDigit = true := fun c hc => hd c (List.mem_cons_of_mem d hc)
    simp only [List.cons_append, List.takeWhile_cons, h1, if_true]
    rw [ih h2]

/-- The `{key:(\d+)}` scanner on exactly one well-formed placeholder
substitutes the callback result. -/
theorem replaceNumArgAux_fire (key : List Char) (f : List Char → List Char)
    (ds : List Char) (hne : ds ≠ []) (hd : ∀ c ∈ ds, c.isDigit = true) :
    replaceNumArgAux key f ('{' :: (key ++ ':' :: (ds ++ ['}']))) 0 = f ds := by
  have hpre : ('{' :: key ++ [':']).isPrefixOf ('{' :: (key ++ ':' :: (ds ++ ['}']))) = true := by
    rw [List.isPrefixOf_iff_prefix]
    refine ⟨ds ++ ['}'], ?_⟩
    simp
  have hsplit : '{' :: (key ++ ':' :: (ds ++ ['}']))
      = (('{' :: key) ++ [':']) ++ (ds ++ ['}']) := by simp
  have hlen2 : key.length + 2 = (('{' :: key) ++ [':']).length := by simp
  have hdrop : ('{' :: (key ++ ':' :: (ds ++ ['}']))).drop (key.length + 2) = ds ++ ['}'] := by
    rw [hsplit, hlen2, List.drop_left]
  have htw : (ds ++ ['}']).takeWhile Char.isDigit = ds :=
    takeWhile_digits_append ds hd [] '}' (by decide)
  have hdd : (ds ++ ['}']).drop ds.length = ['}'] := List.drop_left ds ['}']
  simp only [replaceNumArgAux, hpre, if_true, hdrop, htw, hdd]
  rw [if_pos (And.intro hne (by rfl))]
  rw [replaceNumArgAux_skip_all key f (key ++ ':' :: (ds ++ ['}']))
    (key.length + 1 + ds.length + 1) (by simp; omega)]
  simp

/-- A brace-headed needle that is not a prefix of a brace-headed text
whose tail is brace-free does not occur at all. -/
theorem containsSubList_brace_once (ns rest : List Char)
    (hpre : ('{' :: ns).isPrefixOf ('{' :: rest) = false) (hb : '{' ∉ rest) :
    containsSubList ('{' :: ns) ('{' :: rest) = false := by
  simp only [containsSubList, Bool.or_eq_false_iff]
  exact ⟨hpre, containsSubList_false_of_head_notin _ _ _ hb⟩

/-- The tail of a well-formed numeric placeholder contains no brace. -/
theorem brace_notin_numArg (key ds : List Char) (hkey : '{' ∉ key)
    (hd : ∀ c ∈ ds, c.isDigit = true) : '{' ∉ key ++ ':' :: (ds ++ ['}']) := by
  intro hm
  rcases List.mem_append.mp hm with h | h
  · exact hkey h
  · rcases List.mem_cons.mp h with h | h
    · exact absurd h (by decide)
    · rcases List.mem_append.mp h with h | h
      · exact absurd (hd _ h) (by decide)
      · rcases List.mem_singleton.mp h with h
        exact absurd h (by decide)

/-- Stage 1 is the identity on text not containing `{pov}`. -/
theorem stagePov_id (b : Book) (s : String)
    (h : containsSubList "{pov}".data s.data = false) : stagePov b s = s := by
  unfold stagePov replaceAllJS
  rw [replaceAllJSAux_id _ _ _ h []]

/-- Stage 2 is the identity on text not containing `{tense}`. -/
theorem stageTense_id (b : Book) (s : String)
    (h : containsSubList "{tense}".data s.data = false) : stageTense b s = s := by
  unfold stageTense replaceAllJS
  rw [replaceAllJSAux_id _ _ _ h []]

/-- Stage 3 is the identity on text not containing `{currentChapter}`. -/
theorem stageCurrent_id (c : Option Chapter) (s : String)
    (h : containsSubList "{currentChapter}".data s.data = false) : stageCurrent c s = s := by
  unfold stageCurrent replaceAllJS
  rw [replaceAllJSAux_id _ _ _ h []]

/-- Stage 4 is the identity on text not containing `{lastWords:`. -/
theorem stageLastWords_id (c : Option Chapter) (s : String)
    (h : containsSubList ('{' :: "lastWords".data ++ [':']) s.data = false) :
    stageLastWords c s = s := by
  unfold stageLastWords
  rw [show replaceNumArg "lastWords".data (fun d => (lastWordsText c d).data) s.data
      = replaceNumArgAux "lastWords".data (fun d => (lastWordsText c d).data) s.data 0 from rfl]
  rw [replaceNumArgAux_id _ _ _ h]

/-- Stage 5 is the identity on text not containing `{chapterSummary:`. -/
theorem stageChapterSummary_id (b : Book) (s : String)
    (h : containsSubList ('{' :: "chapterSummary".data ++ [':']) s.data = false) :
    stageChapterSummary b s = s := by
  unfold stageChapterSummary
  rw [show replaceNumArg "chapterSummary".data (fun d => (chapterSummaryText b d).data) s.data
      = replaceNumArgAux "chapterSummary".data (fun d => (chapterSummaryText b d).data) s.data 0
      from rfl]
  rw [replaceNumArgAux_id _ _ _ h]

/-- Stage 6 is the identity on text not containing `{storySoFar}`. -/
theorem stageStorySoFar_id (b : Book) (c : Option Chapter) (s : String)
    (h : containsSubList "{storySoFar}".data s.data = false) : stageStorySoFar b c s = s := by
  unfold stageStorySoFar replaceAllS replaceAllL
  rw [replaceAllAux_id _ _ _ h]

/-- Stage 1 on the bare `{pov}` template substitutes the `$`-expanded
pov label. -/
theorem stagePov_self (b : Book) (hb : b.pov ≠ "") :
    stagePov b "{pov}" = ⟨expandRep "{pov}".data [] [] b.pov.data⟩ := by
  unfold stagePov replaceAllJS
  rw [if_neg hb, replaceAllJS_self _ _ (by decide)]

/-- Stage 2 on the bare `{tense}` template substitutes the
`$`-expanded tense label. -/
theorem stageTense_self (b : Book) (hb : b.tense ≠ "") :
    stageTense b "{tense}" = ⟨expandRep "{tense}".data [] [] b.tense.data⟩ := by
  unfold stageTense replaceAllJS
  rw [if_neg hb, replaceAllJS_self _ _ (by decide)]

/-- Stage 6 on the bare `{storySoFar}` template substitutes the
story-so-far text. -/
theorem stageStorySoFar_self (b : Book) (c : Option Chapter) :
    stageStorySoFar b c "{storySoFar}" = storySoFarText b c := by
  unfold stageStorySoFar replaceAllS replaceAllL
  rw [replaceAllAux_self _ _ (by decide)]

/-- Stage 4 on a bare well-formed `{lastWords:N}` placeholder
substitutes the last-words text. -/
theorem stageLastWords_fire (c : Option Chapter) (ds : List Char)
    (hne : ds ≠ []) (hd : ∀ ch ∈ ds, ch.isDigit = true) :
    stageLastWords c ⟨'{' :: ("lastWords".data ++ ':' :: (ds ++ ['}']))⟩ = lastWordsText c ds := by
  unfold stageLastWords
  rw [show (String.mk ('{' :: ("lastWords".data ++ ':' :: (ds ++ ['}'])))).data
      = '{' :: ("lastWords".data ++ ':' :: (ds ++ ['}'])) from rfl]
  rw [show replaceNumArg "lastWords".data (fun d => (lastWordsText c d).data)
        ('{' :: ("lastWords".data ++ ':' :: (ds ++ ['}'])))
      = replaceNumArgAux "lastWords".data (fun d => (lastWordsText c d).data)
        ('{' :: ("lastWords".data ++ ':' :: (ds ++ ['}']))) 0 from rfl]
  rw [replaceNumArgAux_fire _ _ ds hne hd]

/-- Stage 5 on a bare well-formed `{chapterSummary:N}` placeholder
substitutes the chapter-summary text. -/
theorem stageChapterSummary_fire (b : Book) (ds : List Char)
    (hne : ds ≠ []) (hd : ∀ ch ∈ ds, ch.isDigit = true) :
    stageChapterSummary b ⟨'{' :: ("chapterSummary".data ++ ':' :: (ds ++ ['}']))⟩
      = chapterSummaryText b ds := by
  unfold stageChapterSummary
  rw [show (String.mk ('{' :: ("chapterSummary".data ++ ':' :: (ds ++ ['}'])))).data
      = '{' :: ("chapterSummary".data ++ ':' :: (ds ++ ['}'])) from rfl]
  rw [show replaceNumArg "chapterSummary".data (fun d => (chapterSummaryText b d).data)
        ('{' :: ("chapterSummary".data ++ ':' :: (ds ++ ['}'])))
      = replaceNumArgAux "chapterSummary".data (fun d => (chapterSummaryText b d).data)
        ('{' :: ("chapterSummary".data ++ ':' :: (ds ++ ['}']))) 0 from rfl]
  rw [replaceNumArgAux_fire _ _ ds hne hd]

/-- The stable sort output is a permutation of its input. -/
theorem sortChapters_perm (l : List Chapter) : (sortChapters l).Perm l :=
  List.perm_insertionSort chapterLE l

/-- The stable sort output is sorted ascending by `order`. -/
theorem sortChapters_sorted (l : List Chapter) : List.Sorted chapterLE (sortChapters l) :=
  List.sorted_insertionSort chapterLE l

/-- In a sorted chapter list every element's order is at most the last
element's order. -/
theorem sorted_order_le_getLast :
    ∀ (l : List Chapter), List.Sorted chapterLE l →
      ∀ x ∈ l, ∀ (h : l ≠ []), x.order ≤ (l.getLast h).order := by
  intro l
  induction l with
  | nil => intro _ x hx; cases hx
  | cons a t ih =>
    intro hs x hx hne
    cases t with
    | nil =>
      rcases List.mem_singleton.mp hx with rfl
      simp
    | cons b t' =>
      rw [List.getLast_cons (by simp)]
      rcases List.mem_cons.mp hx with rfl | hx'
      · exact (List.sorted_cons.mp hs).1 _ (List.getLast_mem _)
      · exact ih (List.sorted_cons.mp hs).2 x hx' (by simp)

/-- A character with an empty alias matches every text. -/
theorem hasAliasMatch_of_empty_alias (text : String) (c : Character) (h : "" ∈ c.aliases) :
    hasAliasMatch text c = true := by
  unfold hasAliasMatch
  rw [List.any_eq_true]
  refine ⟨"", h, ?_⟩
  unfold strIncludes
  rw [show (lowerStr "").data = [] from rfl]
  exact containsSubList_nil_left _

/-- Every matching character's id ends up in the accumulated id set or
among the ids produced by the seed scan. -/
theorem seedScan_id_mem (prompt : String) :
    ∀ (l : List Character) (ids : List String) (c : Character), c ∈ l →
      (c.isGlobal || hasAliasMatch prompt c) = true →
      c.id ∈ ids ∨ c.id ∈ (seedScan prompt l ids).map (fun x => x.id) := by
  intro l
  induction l with
  | nil => intro ids c hc _; cases hc
  | cons d rest ih =>
    intro ids c hc hp
    by_cases hcond : ((d.isGlobal || hasAliasMatch prompt d) && !ids.contains d.id) = true
    · rw [show seedScan prompt (d :: rest) ids
          = d :: seedScan prompt rest (d.id :: ids) by rw [seedScan, if_pos hcond]]
      rcases List.mem_cons.mp hc with rfl | hcr
      · right
        exact List.mem_map.mpr ⟨c, List.mem_cons_self _ _, rfl⟩
      · rcases ih (d.id :: ids) c hcr hp with hin | hin
        · rcases List.mem_cons.mp hin with heq | hin2
          · right
            rw [List.map_cons, heq]
            exact List.mem_cons_self _ _
          · exact Or.inl hin2
        · right
          rw [List.map_cons]
          exact List.mem_cons_of_mem _ hin
    · rw [show seedScan prompt (d :: rest) ids = seedScan prompt rest ids by
        rw [seedScan, if_neg hcond]]
      rcases List.mem_cons.mp hc with rfl | hcr
      · left
        have hfalse : ((c.isGlobal || hasAliasMatch prompt c) && !ids.contains c.id) = false :=
          Bool.eq_false_iff.mpr hcond
        rw [hp, Bool.true_and] at hfalse
        have hcontains : ids.contains c.id = true := by simpa using hfalse
        simpa using hcontains
      · exact ih ids c hcr hp

/-- Every queued character appears in the chain-scan output. -/
theorem chainScan_mem_queue :
    ∀ (q r : List Character) (x : Character), x ∈ q → x ∈ chainScan q r := by
  intro q r
  induction q, r using chainScan.induct with
  | case1 r => intro x hx; cases hx
  | case2 c queue remaining h ih =>
    intro x hx
    rw [show chainScan (c :: queue) remaining = c :: chainScan queue remaining by
      rw [chainScan, if_pos h]]
    rcases List.mem_cons.mp hx with rfl | hx'
    · exact List.mem_cons_self _ _
    · exact List.mem_cons_of_mem _ (ih x hx')
  | case3 c queue remaining h p ih =>
    intro x hx
    rw [show chainScan (c :: queue) remaining
        = c :: chainScan (queue ++ (scanDesc c.description remaining).1)
            ((scanDesc c.description remaining).2.filter
              (fun y =>
                !((scanDesc c.description remaining).1.map (fun z => z.id)).contains y.id)) by
      rw [chainScan, if_neg h]]
    rcases List.mem_cons.mp hx with rfl | hx'
    · exact List.mem_cons_self _ _
    · exact List.mem_cons_of_mem _ (ih x (List.mem_append_left _ hx'))

/-- C9 supporting fact spelled at the model level; see the claim
theorem below. -/
theorem generateStoryRun_aborted (s : GenState) :
    generateStoryRun LLMOutcome.aborted s
      = { s with errorState := none, isGenerating := false } := rfl

/-! ### Claim theorems -/

/-- C9: on the abort outcome `generateStory` performs no chapter
mutation and no error-state write (the error state, cleared at call
start, stays clear), `cancelStoryGeneration` likewise touches neither,
and cancellation is distinct from a genuine failure, which does
populate the error state. -/
theorem claim_cancellation_silent :
    (∀ s : GenState, (generateStoryRun LLMOutcome.aborted s).content = s.content
      ∧ (generateStoryRun LLMOutcome.aborted s).errorState = none)
    ∧ (∀ s : GenState, (cancelStoryGeneration s).content = s.content
      ∧ (cancelStoryGeneration s).errorState = s.errorState)
    ∧ (∀ (s : GenState) (m : String),
      (generateStoryRun (LLMOutcome.failure m) s).errorState = some m) :=
  ⟨fun _ => ⟨rfl, rfl⟩, fun _ => ⟨rfl, rfl⟩, fun _ _ => rfl⟩

/-- C5: `selectCodex` returns exactly the items that are global or have
a tag occurring case-insensitively as a substring of the trigger text,
as a sublist of the input (input order, no duplicates introduced; with
id-distinct input the output ids stay distinct), and the dragon
examples behave as specified. -/
theorem claim_selectCodex :
    (∀ (prompt : String) (codex : List CodexItem) (item : CodexItem),
      item ∈ selectCodex prompt codex ↔
        item ∈ codex ∧ (item.isGlobal = true ∨
          ∃ tag ∈ item.tags, (lowerStr tag).data <:+: (lowerStr prompt).data))
    ∧ (∀ (prompt : String) (codex : List CodexItem), (selectCodex prompt codex).Sublist codex)
    ∧ (∀ (prompt : String) (codex : List CodexItem),
        (codex.map (fun i => i.id)).Nodup →
          ((selectCodex prompt codex).map (fun i => i.id)).Nodup)
    ∧ selectCodex "The Dragon awakens" [demoDragonItem] = [demoDragonItem]
    ∧ selectCodex "The knight awakens" [demoDragonItem] = [] := by
  refine ⟨?_, ?_, ?_, by decide, by decide⟩
  · intro prompt codex item
    unfold selectCodex
    rw [List.mem_filter]
    unfold codexMatches
    rw [Bool.or_eq_true, List.any_eq_true]
    constructor
    · rintro ⟨hm, hg | ⟨tag, htag, hinc⟩⟩
      · exact ⟨hm, Or.inl hg⟩
      · exact ⟨hm, Or.inr ⟨tag, htag, (containsSubList_infix_iff _ _).mp hinc⟩⟩
    · rintro ⟨hm, hg | ⟨tag, htag, hinf⟩⟩
      · exact ⟨hm, Or.inl hg⟩
      · exact ⟨hm, Or.inr ⟨tag, htag, (containsSubList_infix_iff _ _).mpr hinf⟩⟩
  · intro prompt codex
    exact List.filter_sublist codex
  · intro prompt codex hnd
    exact hnd.sublist (List.Sublist.map _ (List.filter_sublist codex))

/-- C5 witness: the characterisation instantiated on the dragon item
and its Nodup hypothesis discharged concretely. -/
theorem claim_selectCodex_witness :
    (demoDragonItem ∈ selectCodex "The Dragon awakens" [demoDragonItem] ↔
      demoDragonItem ∈ [demoDragonItem] ∧ (demoDragonItem.isGlobal = true ∨
        ∃ tag ∈ demoDragonItem.tags,
          (lowerStr tag).data <:+: (lowerStr "The Dragon awakens").data))
    ∧ ((selectCodex "The Dragon awakens" [demoDragonItem]).map (fun i => i.id)).Nodup :=
  ⟨claim_selectCodex.1 "The Dragon awakens" [demoDragonItem] demoDragonItem,
    claim_selectCodex.2.2.1 "The Dragon awakens" [demoDragonItem] (by decide)⟩

/-- C10: a character whose alias list contains the empty string
alias-matches every trigger text, so the seed scan includes it (its id
reaches the included set) for every trigger — the empty trigger
included — even when it is not global, and it consequently appears in
the final selection. -/
theorem claim_emptyAlias_always_selected (prompt : String) (chars : List Character)
    (c : Character) (hmem : c ∈ chars) (hal : "" ∈ c.aliases) :
    hasAliasMatch prompt c = true
    ∧ c.id ∈ (seedScan prompt chars []).map (fun x => x.id)
    ∧ c.id ∈ (selectCharacters chars prompt).map (fun x => x.id) := by
  have h1 := hasAliasMatch_of_empty_alias prompt c hal
  refine ⟨h1, ?_, ?_⟩
  · rcases seedScan_id_mem prompt chars [] c hmem (by rw [h1, Bool.or_true]) with h | h
    · cases h
    · exact h
  · rcases seedScan_id_mem prompt chars [] c hmem (by rw [h1, Bool.or_true]) with h | h
    · cases h
    · rcases List.mem_map.mp h with ⟨s, hs, hid⟩
      exact List.mem_map.mpr
        ⟨s, chainScan_mem_queue (seedScan prompt chars []) _ s hs, hid⟩

/-- C10 witness: the non-global empty-alias character is selected for
the empty trigger text. -/
theorem claim_emptyAlias_always_selected_witness :
    demoGhost.isGlobal = false
    ∧ hasAliasMatch "" demoGhost = true
    ∧ demoGhost.id ∈ (selectCharacters [demoGhost] "").map (fun x => x.id) :=
  ⟨rfl, (claim_emptyAlias_always_selected "" [demoGhost] demoGhost (by decide) (by decide)).1,
    (claim_emptyAlias_always_selected "" [demoGhost] demoGhost (by decide) (by decide)).2.2⟩

/-- The whole resolver on the bare `{storySoFar}` template reduces to
the story-so-far text: the five earlier stages leave the template
unchanged and stage 6 substitutes it. -/
theorem parseTemplate_storySoFar (b : Book) (c : Option Chapter) :
    parseTemplate "{storySoFar}" b c = storySoFarText b c := by
  unfold parseTemplate
  rw [stagePov_id _ _ (by decide), stageTense_id _ _ (by decide),
    stageCurrent_id _ _ (by decide), stageLastWords_id _ _ (by decide),
    stageChapterSummary_id _ _ (by decide), stageStorySoFar_self]

/-- C4: with focus chapter `F`, `{storySoFar}` renders exactly the
chapters of order strictly below `F.order` — a permutation of that
filter of the book, sorted ascending, never containing `F` — each as
`[title]: summary` (with the `No summary` placeholder) joined by blank
lines, with the literal `No previous story context.` when none
qualify; with no focus chapter every chapter qualifies. -/
theorem claim_storySoFar (b : Book) (F : Chapter) :
    (parseTemplate "{storySoFar}" b (some F) =
      (if ((sortChapters b.chapters).filter (fun ch => ch.order < F.order)).isEmpty
       then "No previous story context."
       else String.intercalate "\n\n"
        (((sortChapters b.chapters).filter (fun ch => ch.order < F.order)).map
          (fun ch => "[" ++ ch.title ++ "]: "
            ++ (if ch.summary = "" then "No summary" else ch.summary)))))
    ∧ ((sortChapters b.chapters).filter (fun ch => ch.order < F.order)).Perm
        (b.chapters.filter (fun ch => ch.order < F.order))
    ∧ List.Sorted chapterLE ((sortChapters b.chapters).filter (fun ch => ch.order < F.order))
    ∧ F ∉ (sortChapters b.chapters).filter (fun ch => ch.order < F.order)
    ∧ (parseTemplate "{storySoFar}" b none =
        (if b.chapters.isEmpty then "No previous story context."
         else String.intercalate "\n\n" ((sortChapters b.chapters).map
          (fun ch => "[" ++ ch.title ++ "]: "
            ++ (if ch.summary = "" then "No summary" else ch.summary))))) := by
  refine ⟨?_, ?_, ?_, ?_, ?_⟩
  · rw [parseTemplate_storySoFar]
    rfl
  · exact List.Perm.filter _ (sortChapters_perm b.chapters)
  · exact List.Pairwise.filter _ (sortChapters_sorted b.chapters)
  · intro hF
    have := (List.mem_filter.mp hF).2
    simp at this
  · rw [parseTemplate_storySoFar]
    by_cases hch : b.chapters = []
    · simp only [storySoFarText, hch]
      rfl
    · have hso : sortChapters b.chapters ≠ [] := fun h0 =>
        hch (List.Perm.eq_nil (h0 ▸ sortChapters_perm b.chapters).symm)
      have hfil : (sortChapters b.chapters).filter
          (fun ch => decide (ch.order < ((sortChapters b.chapters).getLast hso).order + 1))
          = sortChapters b.chapters :=
        List.filter_eq_self.mpr (fun a ha => by
          have hle := sorted_order_le_getLast _ (sortChapters_sorted b.chapters) a ha hso
          simp only [decide_eq_true_eq]
          omega)
      simp only [storySoFarText, List.getLast?_eq_getLast _ hso]
      rw [hfil, (sortChapters_perm b.chapters).isEmpty_eq]

/-- The five stages other than `{chapterSummary:N}` leave a bare
well-formed `{chapterSummary:N}` placeholder unchanged, so the resolver
substitutes the chapter-summary text (and then still runs the final
`{storySoFar}` stage over the substituted text). -/
theorem parseTemplate_chapterSummary (b : Book) (c : Option Chapter) (ds : List Char)
    (hne : ds ≠ []) (hd : ∀ ch ∈ ds, ch.isDigit = true) :
    parseTemplate ⟨'{' :: ("chapterSummary".data ++ ':' :: (ds ++ ['}']))⟩ b c
      = stageStorySoFar b c (chapterSummaryText b ds) := by
  have hb : '{' ∉ "chapterSummary".data ++ ':' :: (ds ++ ['}']) :=
    brace_notin_numArg _ ds (by decide) hd
  unfold parseTemplate
  rw [stagePov_id _ _ (containsSubList_brace_once "pov\x7d".data
      ("chapterSummary".data ++ ':' :: (ds ++ ['}'])) rfl hb),
    stageTense_id _ _ (containsSubList_brace_once "tense\x7d".data
      ("chapterSummary".data ++ ':' :: (ds ++ ['}'])) rfl hb),
    stageCurrent_id _ _ (containsSubList_brace_once "currentChapter\x7d".data
      ("chapterSummary".data ++ ':' :: (ds ++ ['}'])) rfl hb),
    stageLastWords_id _ _ (containsSubList_brace_once ("lastWords".data ++ [':'])
      ("chapterSummary".data ++ ':' :: (ds ++ ['}'])) rfl hb),
    stageChapterSummary_fire b ds hne hd]

/-- C6: a well-formed `{chapterSummary:N}` placeholder resolves through
the chapter-summary rule — the `N`-th (1-based) chapter of the stable
order-sorted list supplies its summary, `No summary available`
replacing an empty summary, `Chapter not found` covering every `N`
beyond the chapter count (the empty book included), and the numeral `0`
resolving to the empty string. -/
theorem claim_chapterSummaryN (b : Book) (c : Option Chapter) (ds : List Char)
    (hne : ds ≠ []) (hd : ∀ ch ∈ ds, ch.isDigit = true) :
    parseTemplate ⟨'{' :: ("chapterSummary".data ++ ':' :: (ds ++ ['}']))⟩ b c
      = stageStorySoFar b c (chapterSummaryText b ds)
    ∧ (sortChapters b.chapters).Perm b.chapters
    ∧ List.Sorted chapterLE (sortChapters b.chapters)
    ∧ (digitsVal ds = 0 → chapterSummaryText b ds = "")
    ∧ (∀ ch : Chapter, 1 ≤ digitsVal ds →
        (sortChapters b.chapters).get? (digitsVal ds - 1) = some ch →
        chapterSummaryText b ds = (if ch.summary = "" then "No summary available" else ch.summary))
    ∧ (b.chapters.length < digitsVal ds → chapterSummaryText b ds = "Chapter not found") := by
  refine ⟨parseTemplate_chapterSummary b c ds hne hd, sortChapters_perm _, sortChapters_sorted _,
    ?_, ?_, ?_⟩
  · intro hz
    unfold chapterSummaryText
    rw [if_pos hz]
  · intro ch h1 hget
    unfold chapterSummaryText
    rw [if_neg (by omega), hget]
  · intro hgt
    unfold chapterSummaryText
    rw [if_neg (by omega)]
    have hlen : (sortChapters b.chapters).length = b.chapters.length :=
      (sortChapters_perm b.chapters).length_eq
    rw [List.get?_eq_none.mpr (by omega)]

/-- C6 witness: `{chapterSummary:1}` on the two-chapter demo book picks
the summary of the chapter with the smaller order, and on the empty
book yields `Chapter not found`. -/
theorem claim_chapterSummaryN_witness :
    parseTemplate ⟨'{' :: ("chapterSummary".data ++ ':' :: (['1'] ++ ['}']))⟩
        demoBookTwoChapters none
      = stageStorySoFar demoBookTwoChapters none (chapterSummaryText demoBookTwoChapters ['1'])
    ∧ chapterSummaryText demoBookTwoChapters ['1'] = "It began."
    ∧ chapterSummaryText demoEmptyBook ['1'] = "Chapter not found"
    ∧ chapterSummaryText demoBookTwoChapters ['2'] = "No summary available"
    ∧ chapterSummaryText demoBookTwoChapters ['0'] = "" := by
  refine ⟨(claim_chapterSummaryN demoBookTwoChapters none ['1'] (by decide) (by decide)).1,
    ?_, ?_, ?_, ?_⟩
  · exact (claim_chapterSummaryN demoBookTwoChapters none ['1'] (by decide)
      (by decide)).2.2.2.2.1
      { id := "c1", title := "One", summary := "It began.", content := "first words", order := 0 }
      (by decide) (by decide)
  · exact (claim_chapterSummaryN demoEmptyBook none ['1'] (by decide)
      (by decide)).2.2.2.2.2 (by decide)
  · exact (claim_chapterSummaryN demoBookTwoChapters none ['2'] (by decide)
      (by decide)).2.2.2.2.1
      { id := "c2", title := "Two", summary := "", content := "later words here", order := 1 }
      (by decide) (by decide)
  · exact (claim_chapterSummaryN demoBookTwoChapters none ['0'] (by decide)
      (by decide)).2.2.2.1 (by decide)

/-- The five stages other than `{lastWords:N}` leave a bare
well-formed `{lastWords:N}` placeholder unchanged, so the resolver
substitutes the last-words text for it. -/
theorem parseTemplate_lastWords (b : Book) (c : Option Chapter) (ds : List Char)
    (hne : ds ≠ []) (hd : ∀ ch ∈ ds, ch.isDigit = true) :
    parseTemplate ⟨'{' :: ("lastWords".data ++ ':' :: (ds ++ ['}']))⟩ b c
      = stageStorySoFar b c (stageChapterSummary b (lastWordsText c ds)) := by
  have hb : '{' ∉ "lastWords".data ++ ':' :: (ds ++ ['}']) :=
    brace_notin_numArg _ ds (by decide) hd
  unfold parseTemplate
  rw [stagePov_id _ _ (containsSubList_brace_once "pov\x7d".data
      ("lastWords".data ++ ':' :: (ds ++ ['}'])) rfl hb),
    stageTense_id _ _ (containsSubList_brace_once "tense\x7d".data
      ("lastWords".data ++ ':' :: (ds ++ ['}'])) rfl hb),
    stageCurrent_id _ _ (containsSubList_brace_once "currentChapter\x7d".data
      ("lastWords".data ++ ':' :: (ds ++ ['}'])) rfl hb),
    stageLastWords_fire c ds hne hd]

/-- C7 (amended): a numeric argument of value zero makes
`{lastWords:N}` and `{chapterSummary:N}` resolve to the empty string
without failing the resolution, while a non-numeric argument does not
match the placeholder syntax at all and the text is left verbatim in
the output (resolution still succeeds). -/
theorem claim_malformed_args (b : Book) (c : Option Chapter) (ds : List Char)
    (hne : ds ≠ []) (hd : ∀ ch ∈ ds, ch.isDigit = true) (hz : digitsVal ds = 0) :
    parseTemplate ⟨'{' :: ("lastWords".data ++ ':' :: (ds ++ ['}']))⟩ b c = ""
    ∧ parseTemplate ⟨'{' :: ("chapterSummary".data ++ ':' :: (ds ++ ['}']))⟩ b c = ""
    ∧ parseTemplate "{lastWords:abc}" b c = "{lastWords:abc}"
    ∧ parseTemplate "{chapterSummary:-1}" b c = "{chapterSummary:-1}" := by
  have hlw : lastWordsText c ds = "" := by
    unfold lastWordsText
    cases c with
    | none => rfl
    | some ch => simp [hz]
  have hcs : chapterSummaryText b ds = "" := by
    unfold chapterSummaryText
    rw [if_pos hz]
  refine ⟨?_, ?_, ?_, ?_⟩
  · rw [parseTemplate_lastWords b c ds hne hd, hlw]
    rfl
  · rw [parseTemplate_chapterSummary b c ds hne hd, hcs]
    rfl
  · unfold parseTemplate
    rw [stagePov_id _ _ (by decide), stageTense_id _ _ (by decide),
      stageCurrent_id _ _ (by decide)]
    have h4 : stageLastWords c "{lastWords:abc}" = "{lastWords:abc}" := by
      unfold stageLastWords replaceNumArg
      rw [show replaceNumArgAux "lastWords".data (fun d => (lastWordsText c d).data)
            "{lastWords:abc}".data 0
          = '{' :: replaceNumArgAux "lastWords".data (fun d => (lastWordsText c d).data)
            "lastWords:abc\x7d".data 0 from rfl]
      rw [replaceNumArgAux_id _ _ _ (by decide)]
    rw [h4, stageChapterSummary_id _ _ (by decide), stageStorySoFar_id _ _ _ (by decide)]
  · unfold parseTemplate
    rw [stagePov_id _ _ (by decide), stageTense_id _ _ (by decide),
      stageCurrent_id _ _ (by decide), stageLastWords_id _ _ (by decide)]
    have h5 : stageChapterSummary b "{chapterSummary:-1}" = "{chapterSummary:-1}" := by
      unfold stageChapterSummary replaceNumArg
      rw [show replaceNumArgAux "chapterSummary".data (fun d => (chapterSummaryText b d).data)
            "{chapterSummary:-1}".data 0
          = '{' :: replaceNumArgAux "chapterSummary".data (fun d => (chapterSummaryText b d).data)
            "chapterSummary:-1\x7d".data 0 from rfl]
      rw [replaceNumArgAux_id _ _ _ (by decide)]
    rw [h5, stageStorySoFar_id _ _ _ (by decide)]

/-- C7 counterexample: on a concrete book the non-numeric argument
`abc` leaves `{lastWords:abc}` verbatim in the output instead of
resolving to the empty string, refuting the claim as stated. -/
theorem claim_malformed_args_cex :
    parseTemplate "{lastWords:abc}" demoEmptyBook none = "{lastWords:abc}"
    ∧ ("{lastWords:abc}" : String) ≠ "" := by
  exact ⟨by decide, by decide⟩

/-- C7 witness: the amended claim instantiated on the numeral `0` and
the demo book. -/
theorem claim_malformed_args_witness :
    parseTemplate ⟨'{' :: ("lastWords".data ++ ':' :: (['0'] ++ ['}']))⟩ demoEmptyBook none = ""
    ∧ parseTemplate "{chapterSummary:-1}" demoEmptyBook none = "{chapterSummary:-1}" :=
  ⟨(claim_malformed_args demoEmptyBook none ['0'] (by decide) (by decide) (by decide)).1,
    (claim_malformed_args demoEmptyBook none ['0'] (by decide) (by decide) (by decide)).2.2.2⟩

/-- C2 (amended): the six substitutions run in the fixed order pov,
tense, currentChapter, lastWords, chapterSummary, storySoFar, each a
global replace over the result of the previous stage (the first three
with JS string-replacement `$`-pattern interpretation); text injected
by a substitution is never re-expanded by the same or an earlier stage
of the run, but it IS re-expanded by later stages: a pov label
`{tense}` is expanded by the subsequent tense stage (for tense values
without `$`-substitution patterns, which that stage would additionally
rewrite), while a tense label `{pov}` survives to the output because
the pov stage has already run. -/
theorem claim_template_stage_order :
    (∀ (b : Book) (c : Option Chapter), b.pov = "{tense}" → b.tense ≠ "" →
      '$' ∉ b.tense.data →
      stageStorySoFar b c (stageChapterSummary b (stageLastWords c (stageCurrent c b.tense)))
        = b.tense →
      parseTemplate "{pov}" b c = b.tense)
    ∧ (∀ (b : Book) (c : Option Chapter), b.tense = "{pov}" →
      parseTemplate "{tense}" b c = "{pov}") := by
  constructor
  · intro b c hpov htense hdollar hlate
    unfold parseTemplate
    rw [stagePov_self b (by rw [hpov]; decide), hpov]
    rw [show (⟨expandRep "{pov}".data [] [] "{tense}".data⟩ : String) = "{tense}" from rfl]
    rw [stageTense_self b htense, expandRep_no_dollar _ _ _ _ hdollar]
    rw [show (⟨b.tense.data⟩ : String) = b.tense from rfl]
    exact hlate
  · intro b c htense
    unfold parseTemplate
    rw [stagePov_id _ _ (by decide), stageTense_self b (by rw [htense]; decide), htense]
    rw [show (⟨expandRep "{tense}".data [] [] "{pov}".data⟩ : String) = "{pov}" from rfl]
    rw [stageCurrent_id _ _ (by decide), stageLastWords_id _ _ (by decide),
      stageChapterSummary_id _ _ (by decide), stageStorySoFar_id _ _ _ (by decide)]

/-- C2 counterexample: the book whose pov label is literally `{tense}`
resolves the template `{pov}` to `T` — the text injected by the pov
substitution was re-expanded by the later tense substitution, refuting
the claim that injected text is never re-expanded by another
substitution of the same run. -/
theorem claim_template_stage_order_cex :
    demoBookPovTense.pov = "{tense}"
    ∧ parseTemplate "{pov}" demoBookPovTense none = "T"
    ∧ ("T" : String) ≠ "{tense}" :=
  ⟨rfl, by decide, by decide⟩

/-- C2 witness: both halves of the amended claim instantiated on
concrete books. -/
theorem claim_template_stage_order_witness :
    parseTemplate "{pov}" demoBookPovTense none = demoBookPovTense.tense
    ∧ parseTemplate "{tense}" demoBookTensePov none = "{pov}" :=
  ⟨claim_template_stage_order.1 demoBookPovTense none rfl (by decide) (by decide) (by decide),
    claim_template_stage_order.2 demoBookTensePov none rfl⟩

/-- C3 (amended): the suggestion parsing pipeline is exactly the
three-strategy cascade in the fixed order array-slice JSON, positional
field zipping, whole-text single object — each later strategy consulted
only when every earlier one produced zero records — and it fails only
when all three produce zero records, with the dedicated fixed error
message (which does not carry the raw text); the three behaviours from
the specification's examples hold. -/
theorem claim_suggestion_cascade :
    (∀ raw : String,
      parseSuggestions raw =
        (if (strat1 (jsTrimL raw.data)).isEmpty = true then
          (if (strat2 raw).isEmpty = true then
            (if (strat3 (jsTrimL raw.data)).isEmpty = true then Except.error errFailMsg
             else Except.ok (strat3 (jsTrimL raw.data)))
           else Except.ok (strat2 raw))
         else Except.ok (strat1 (jsTrimL raw.data))))
    ∧ parseSuggestions "[\x7b\"suggestionSummary\":\"S1\",\"suggestionDescription\":\"D1\"\x7d]"
      = Except.ok [Json.obj [(sumKey, Json.str "S1".data), (descKey, Json.str "D1".data)]]
    ∧ parseSuggestions
        "noise \"suggestionSummary\": \"S2\" and \"suggestionDescription\": \"D2\" end"
      = Except.ok [Json.obj [(sumKey, Json.str "S2".data), (descKey, Json.str "D2".data)]]
    ∧ parseSuggestions "\x7b\"suggestionSummary\": 5\x7d"
      = Except.ok [Json.obj [(sumKey, Json.num ['5'])]]
    ∧ parseSuggestions "complete garbage here" = Except.error errFailMsg := by
  refine ⟨?_, rfl, rfl, rfl, rfl⟩
  intro raw
  by_cases h1 : (strat1 (jsTrimL raw.data)).isEmpty = true
  · by_cases h2 : (strat2 raw).isEmpty = true
    · by_cases h3 : (strat3 (jsTrimL raw.data)).isEmpty = true
      · simp [parseSuggestions, h1, h2, h3]
      · simp [parseSuggestions, h1, h2, h3]
    · simp [parseSuggestions, h1, h2]
  · simp [parseSuggestions, h1]

/-- C3 counterexample: the dedicated parse error carries a fixed
message that does not contain the raw text, refuting the clause that
the error carries the raw text for diagnostics. -/
theorem claim_suggestion_cascade_cex :
    parseSuggestions "complete garbage here" = Except.error errFailMsg
    ∧ strIncludes errFailMsg "complete garbage here" = false :=
  ⟨rfl, by decide⟩

/-- A case-insensitive prefix match lower-cases to a literal prefix
match. -/
theorem ciPrefix_isPrefixOf :
    ∀ p h : List Char, ciPrefix p h = true →
      (p.map Char.toLower).isPrefixOf (h.map Char.toLower) = true := by
  intro p
  induction p with
  | nil => intro h _; simp [List.isPrefixOf]
  | cons a ps ih =>
    intro h hp
    cases h with
    | nil => simp [ciPrefix] at hp
    | cons b hs =>
      simp only [ciPrefix, Bool.and_eq_true] at hp
      simp only [List.map_cons, List.isPrefixOf, Bool.and_eq_true]
      refine ⟨?_, ih hs hp.2⟩
      simp only [beq_iff_eq]
      exact of_decide_eq_true hp.1

/-- A prefix occurrence is in particular a substring occurrence. -/
theorem containsSubList_of_isPrefixOf (n h : List Char) (hp : n.isPrefixOf h = true) :
    containsSubList n h = true := by
  cases h with
  | nil =>
    cases n with
    | nil => rfl
    | cons a as => simp [List.isPrefixOf] at hp
  | cons c t =>
    simp only [containsSubList, Bool.or_eq_true]
    exact Or.inl hp

/-- A successful word-boundary scan implies a case-insensitive literal
substring occurrence — the escaped pattern never matches anything but
the literal trigger text. -/
theorem wbScan_substring :
    ∀ (rest : List Char) (trigger : List Char) (prev : Option Char),
      wbScan trigger prev rest = true →
      containsSubList (trigger.map Char.toLower) (rest.map Char.toLower) = true := by
  intro rest
  induction rest with
  | nil =>
    intro trigger prev h
    have hrw : wbScan trigger prev [] = (wbHere trigger prev [] || false) := rfl
    rw [hrw, Bool.or_false] at h
    unfold wbHere at h
    simp only [Bool.and_eq_true] at h
    have := containsSubList_of_isPrefixOf _ _ (ciPrefix_isPrefixOf trigger [] h.1.2)
    simpa using this
  | cons c t ih =>
    intro trigger prev h
    have hrw : wbScan trigger prev (c :: t)
        = (wbHere trigger prev (c :: t) || wbScan trigger (some c) t) := rfl
    rw [hrw] at h
    simp only [Bool.or_eq_true] at h
    rcases h with hh | hs
    · unfold wbHere at hh
      simp only [Bool.and_eq_true] at hh
      exact containsSubList_of_isPrefixOf _ _ (ciPrefix_isPrefixOf trigger (c :: t) hh.1.2)
    · have := ih trigger (some c) hs
      simp only [List.map_cons, containsSubList, Bool.or_eq_true]
      exact Or.inr this

/-- C8 (amended): alias matching in `detectCharacters` escapes every
regex metacharacter, so the compiled pattern matches only literal
occurrences of the alias — never a wildcard expansion such as `AxJy` —
but the pattern is word-boundary anchored, so it matches exactly the
literal occurrences flanked by word boundaries: `A.J.` matches in
`A.J.s rifle` yet not in `A.J. went home` (the trailing `.` demands a
following word character), even though the latter contains the literal
substring. -/
theorem claim_alias_escaping :
    (∀ text : String, detectMatch text demoAJ = true →
      strIncludes (lowerStr text) (lowerStr "A.J.") = true)
    ∧ detectMatch "AxJy" demoAJ = false
    ∧ detectMatch "A.J.s rifle" demoAJ = true
    ∧ detectMatch "A.J. went home" demoAJ = false
    ∧ detectCharacters [demoAJ] "see A.J.s" = [demoAJ] := by
  refine ⟨?_, by decide, by decide, by decide, by decide⟩
  intro text hm
  unfold detectMatch at hm
  rw [List.any_eq_true] at hm
  obtain ⟨tr, htr, hwb⟩ := hm
  have hl : charTriggers demoAJ = ["A.J.", "A.J."] := by decide
  rw [hl] at htr
  have htr2 : tr = "A.J." := by
    rcases List.mem_cons.mp htr with h | h
    · exact h
    · exact List.mem_singleton.mp h
  subst htr2
  exact wbScan_substring text.data "A.J.".data none hwb

/-- C8 counterexample: the text `A.J. went home` contains the literal
substring `A.J.` yet `detectCharacters` does not match the alias,
refuting the claim that the alias matches exactly the texts containing
the literal substring. -/
theorem claim_alias_escaping_cex :
    strIncludes "A.J. went home" "A.J." = true
    ∧ detectCharacters [demoAJ] "A.J. went home" = [] :=
  ⟨by decide, by decide⟩

/-- C8 witness: the substring consequence instantiated on a matching
text. -/
theorem claim_alias_escaping_witness :
    strIncludes (lowerStr "met A.J.s") (lowerStr "A.J.") = true :=
  claim_alias_escaping.1 "met A.J.s" (by decide)

/-- Matching against the empty text succeeds exactly for characters
with an empty alias. -/
theorem hasAliasMatch_empty_iff (x : Character) :
    hasAliasMatch "" x = true ↔ "" ∈ x.aliases := by
  unfold hasAliasMatch
  rw [List.any_eq_true]
  constructor
  · rintro ⟨a, ha, hc⟩
    have hie : (lowerStr a).data.isEmpty = true := hc
    have ha0 : a.data = [] := by
      rcases hd : a.data with _ | ⟨z, zs⟩
      · rfl
      · rw [show (lowerStr a).data = a.data.map Char.toLower from rfl, hd] at hie
        simp at hie
    have : a = "" := by
      cases a with
      | mk d =>
        simp only at ha0
        rw [ha0]
    exact this ▸ ha
  · intro h
    refine ⟨"", h, ?_⟩
    rfl

/-- Both components of a description scan draw from the candidate
list. -/
theorem scanDesc_sub (d : String) :
    ∀ l : List Character,
      (∀ x ∈ (scanDesc d l).1, x ∈ l) ∧ (∀ x ∈ (scanDesc d l).2, x ∈ l) := by
  intro l
  induction l using scanDesc.induct d with
  | case1 => simp [scanDesc]
  | case2 cand rest h ih =>
    rw [scanDesc, if_pos h]
    constructor
    · intro x hx
      rcases List.mem_cons.mp hx with rfl | hx'
      · exact List.mem_cons_self _ _
      · exact List.mem_cons_of_mem _ (List.mem_of_mem_filter (ih.1 x hx'))
    · intro x hx
      exact List.mem_cons_of_mem _ (List.mem_of_mem_filter (ih.2 x hx))
  | case3 cand rest h ih =>
    rw [scanDesc, if_neg h]
    constructor
    · intro x hx
      exact List.mem_cons_of_mem _ (ih.1 x hx)
    · intro x hx
      rcases List.mem_cons.mp hx with rfl | hx'
      · exact List.mem_cons_self _ _
      · exact List.mem_cons_of_mem _ (ih.2 x hx')

/-- Scanning an empty description over candidates without empty aliases
adds nothing and keeps every candidate pending. -/
theorem scanDesc_empty_desc :
    ∀ r : List Character, (∀ x ∈ r, hasAliasMatch "" x = false) → scanDesc "" r = ([], r) := by
  intro r
  induction r with
  | nil => intro _; simp [scanDesc]
  | cons cand rest ih =>
    intro hr
    have hc : hasAliasMatch "" cand = false := hr cand (List.mem_cons_self _ _)
    rw [scanDesc, if_neg (by simp [hc])]
    rw [ih (fun x hx => hr x (List.mem_cons_of_mem _ hx))]

/-- The implemented chain scan (which skips empty descriptions) agrees
with the specification chain scan (which scans them) whenever no
pending candidate has an empty alias. -/
theorem chainScan_eq_spec :
    ∀ q r : List Character, (∀ x ∈ r, hasAliasMatch "" x = false) →
      chainScan q r = chainScanSpec q r := by
  intro q r
  induction q, r using chainScan.induct with
  | case1 r => intro _; simp [chainScan, chainScanSpec]
  | case2 c queue remaining h ih =>
    intro hr
    rw [chainScan, if_pos h, chainScanSpec, h]
    rw [scanDesc_empty_desc remaining hr]
    simp only [List.append_nil, List.map_nil]
    have hfid : remaining.filter (fun x => !(List.contains ([] : List String) x.id))
        = remaining := List.filter_eq_self.mpr (fun a _ => rfl)
    rw [hfid, ih hr]
  | case3 c queue remaining h p ih =>
    intro hr
    rw [chainScan, if_neg h, chainScanSpec]
    have hr' : ∀ x ∈ (scanDesc c.description remaining).2.filter
        (fun y =>
          !((scanDesc c.description remaining).1.map (fun z => z.id)).contains y.id),
        hasAliasMatch "" x = false := fun x hx =>
      hr x ((scanDesc_sub c.description remaining).2 x (List.mem_of_mem_filter hx))
    exact congrArg (List.cons c) (ih hr')

/-- The ids produced by the seed scan are pairwise distinct and avoid
the accumulated id set. -/
theorem seedScan_ids_nodup (prompt : String) :
    ∀ (l : List Character) (ids : List String),
      ((seedScan prompt l ids).map (fun x => x.id)).Nodup
      ∧ ∀ i ∈ (seedScan prompt l ids).map (fun x => x.id), i ∉ ids := by
  intro l
  induction l with
  | nil =>
    intro ids
    exact ⟨by simp [seedScan], by simp [seedScan]⟩
  | cons d rest ih =>
    intro ids
    by_cases hcond : ((d.isGlobal || hasAliasMatch prompt d) && !ids.contains d.id) = true
    · have hs : seedScan prompt (d :: rest) ids = d :: seedScan prompt rest (d.id :: ids) := by
        rw [seedScan, if_pos hcond]
      rw [hs]
      obtain ⟨ihn, ihm⟩ := ih (d.id :: ids)
      constructor
      · simp only [List.map_cons, List.nodup_cons]
        exact ⟨fun hmem => ihm d.id hmem (List.mem_cons_self _ _), ihn⟩
      · intro i hi
        rw [List.map_cons] at hi
        rcases List.mem_cons.mp hi with rfl | hi'
        · have : ids.contains d.id = false := by
            rw [Bool.and_eq_true] at hcond
            simpa using hcond.2
          simpa using this
        · intro hin
          exact ihm i hi' (List.mem_cons_of_mem _ hin)
    · have hs : seedScan prompt (d :: rest) ids = seedScan prompt rest ids := by
        rw [seedScan, if_neg hcond]
      rw [hs]
      exact ih ids

/-- The newly matched characters of one description scan have pairwise
distinct ids. -/
theorem scanDesc_news_nodup (d : String) :
    ∀ l : List Character, (((scanDesc d l).1).map (fun x => x.id)).Nodup := by
  intro l
  induction l using scanDesc.induct d with
  | case1 => simp [scanDesc]
  | case2 cand rest h ih =>
    rw [scanDesc, if_pos h]
    simp only [List.map_cons, List.nodup_cons]
    refine ⟨?_, ih⟩
    intro hmem
    rcases List.mem_map.mp hmem with ⟨y, hy, hid⟩
    have hy' := (scanDesc_sub d (rest.filter (fun x => x.id ≠ cand.id))).1 y hy
    have hmf := (List.mem_filter.mp hy').2
    rw [hid] at hmf
    simp at hmf
  | case3 cand rest h ih =>
    rw [scanDesc, if_neg h]
    exact ih

/-- Every id in the chain-scan output stems from the queue or the
pending candidates. -/
theorem chainScan_out_ids (x : Character) :
    ∀ q r : List Character, x ∈ chainScan q r →
      x.id ∈ q.map (fun y => y.id) ∨ x.id ∈ r.map (fun y => y.id) := by
  intro q r
  induction q, r using chainScan.induct with
  | case1 r =>
    intro hx
    simp [chainScan] at hx
  | case2 c queue remaining h ih =>
    intro hx
    rw [chainScan, if_pos h] at hx
    rcases List.mem_cons.mp hx with rfl | hx'
    · exact Or.inl (List.mem_map.mpr ⟨x, List.mem_cons_self _ _, rfl⟩)
    · rcases ih hx' with hq | hr
      · exact Or.inl (by rw [List.map_cons]; exact List.mem_cons_of_mem _ hq)
      · exact Or.inr hr
  | case3 c queue remaining h p ih =>
    intro hx
    rw [chainScan, if_neg h] at hx
    rcases List.mem_cons.mp hx with rfl | hx'
    · exact Or.inl (List.mem_map.mpr ⟨x, List.mem_cons_self _ _, rfl⟩)
    · rcases ih hx' with hq | hr
      · rw [List.map_append] at hq
        rcases List.mem_append.mp hq with hq1 | hq2
        · exact Or.inl (by rw [List.map_cons]; exact List.mem_cons_of_mem _ hq1)
        · rcases List.mem_map.mp hq2 with ⟨y, hy, hid⟩
          exact Or.inr (List.mem_map.mpr
            ⟨y, (scanDesc_sub c.description remaining).1 y hy, hid⟩)
      · rcases List.mem_map.mp hr with ⟨y, hy, hid⟩
        exact Or.inr (List.mem_map.mpr
          ⟨y, (scanDesc_sub c.description remaining).2 y (List.mem_of_mem_filter hy), hid⟩)

/-- The chain scan emits pairwise-distinct ids whenever the queue ids
are distinct and no pending candidate shares an id with the queue. -/
theorem chainScan_ids_nodup :
    ∀ q r : List Character, (q.map (fun y => y.id)).Nodup →
      (∀ x ∈ r, x.id ∉ q.map (fun y => y.id)) →
      ((chainScan q r).map (fun y => y.id)).Nodup := by
  intro q r
  induction q, r using chainScan.induct with
  | case1 r =>
    intro _ _
    simp [chainScan]
  | case2 c queue remaining h ih =>
    intro hq hr
    rw [chainScan, if_pos h]
    rw [List.map_cons, List.nodup_cons] at hq ⊢
    refine ⟨?_, ih hq.2 (fun x hx hm => hr x hx (by
      rw [List.map_cons]; exact List.mem_cons_of_mem _ hm))⟩
    intro hmem
    rcases List.mem_map.mp hmem with ⟨y, hy, hid⟩
    rcases chainScan_out_ids y queue remaining hy with hqy | hry
    · rw [hid] at hqy
      exact hq.1 hqy
    · rw [hid] at hry
      rcases List.mem_map.mp hry with ⟨z, hz, hzid⟩
      exact hr z hz (by
        rw [List.map_cons, hzid]
        exact List.mem_cons_self _ _)
  | case3 c queue remaining h p ih =>
    intro hq hr
    rw [chainScan, if_neg h]
    rw [List.map_cons, List.nodup_cons] at hq ⊢
    have hnewsub : ∀ y ∈ (scanDesc c.description remaining).1, y ∈ remaining :=
      (scanDesc_sub c.description remaining).1
    have hq' : ((queue ++ (scanDesc c.description remaining).1).map (fun y => y.id)).Nodup := by
      rw [List.map_append, List.nodup_append]
      refine ⟨hq.2, scanDesc_news_nodup c.description remaining, ?_⟩
      intro a ha hb
      rcases List.mem_map.mp hb with ⟨z, hz, hzid⟩
      exact hr z (hnewsub z hz) (by
        rw [List.map_cons, hzid]
        exact List.mem_cons_of_mem _ (hzid ▸ ha))
    have hr' : ∀ x ∈ (scanDesc c.description remaining).2.filter
        (fun y =>
          !((scanDesc c.description remaining).1.map (fun z => z.id)).contains y.id),
        x.id ∉ (queue ++ (scanDesc c.description remaining).1).map (fun y => y.id) := by
      intro x hx
      have hx2 := List.mem_of_mem_filter hx
      have hxr := (scanDesc_sub c.description remaining).2 x hx2
      have hfp := (List.mem_filter.mp hx).2
      rw [List.map_append]
      intro hm
      rcases List.mem_append.mp hm with hm1 | hm2
      · exact hr x hxr (by rw [List.map_cons]; exact List.mem_cons_of_mem _ hm1)
      · have : ((scanDesc c.description remaining).1.map (fun z => z.id)).contains x.id
            = true := by simpa using hm2
        rw [this] at hfp
        simp at hfp
    refine ⟨?_, ih hq' hr'⟩
    intro hmem
    rcases List.mem_map.mp hmem with ⟨y, hy, hid⟩
    rcases chainScan_out_ids y _ _ hy with hqy | hry
    · rw [hid, List.map_append] at hqy
      rcases List.mem_append.mp hqy with hq1 | hq2
      · exact hq.1 hq1
      · rcases List.mem_map.mp hq2 with ⟨z, hz, hzid⟩
        exact hr z (hnewsub z hz) (by
          rw [List.map_cons, hzid]
          exact List.mem_cons_self _ _)
    · rw [hid] at hry
      rcases List.mem_map.mp hry with ⟨z, hz, hzid⟩
      have hzr := (scanDesc_sub c.description remaining).2 z (List.mem_of_mem_filter hz)
      exact hr z hzr (by
        rw [List.map_cons, hzid]
        exact List.mem_cons_self _ _)

/-- C1: the character-relevance selection of `generateStory` computes
exactly the breadth-first transitive closure described by the
specification — it equals, on every input, the spec-side scan in which
every included character's description (empty ones included) is
scanned in inclusion order and matches are appended to the queue — in
discovery order with pairwise-distinct ids (each character at most
once); the function is total (the `not yet included` guard is the
termination measure), and the chaining and two-character-cycle
examples behave as specified. -/
theorem claim_selectCharacters_closure :
    (∀ (allChars : List Character) (prompt : String),
      selectCharacters allChars prompt = selectCharactersSpec allChars prompt)
    ∧ (∀ (allChars : List Character) (prompt : String),
      ((selectCharacters allChars prompt).map (fun c => c.id)).Nodup)
    ∧ selectCharacters [demoA, demoB] "meet Al today" = [demoA, demoB]
    ∧ selectCharacters [demoX, demoY] "hello there" = [demoX, demoY]
    ∧ selectCharactersSpec [demoX, demoY] "hello there" = [demoX, demoY] := by
  have hnoempty : ∀ (allChars : List Character) (prompt : String),
      ∀ x ∈ allChars.filter
        (fun c => !((seedScan prompt allChars []).map (fun y => y.id)).contains c.id),
        hasAliasMatch "" x = false := by
    intro allChars prompt x hx
    have hm := List.mem_filter.mp hx
    have hnotin : x.id ∉ (seedScan prompt allChars []).map (fun y => y.id) := by
      have hb := hm.2
      intro hin
      have hc : ((seedScan prompt allChars []).map (fun y => y.id)).contains x.id = true := by
        simpa using hin
      rw [hc] at hb
      simp at hb
    cases hb : hasAliasMatch "" x with
    | false => rfl
    | true =>
      have hempty := (hasAliasMatch_empty_iff x).mp hb
      have hmp : hasAliasMatch prompt x = true := hasAliasMatch_of_empty_alias prompt x hempty
      rcases seedScan_id_mem prompt allChars [] x hm.1 (by rw [hmp, Bool.or_true]) with h0 | hid
      · cases h0
      · exact absurd hid hnotin
  refine ⟨?_, ?_, ?_, ?_, ?_⟩
  · intro allChars prompt
    unfold selectCharacters selectCharactersSpec
    exact chainScan_eq_spec _ _ (hnoempty allChars prompt)
  · intro allChars prompt
    unfold selectCharacters
    apply chainScan_ids_nodup
    · exact (seedScan_ids_nodup prompt allChars []).1
    · intro x hx
      have hm := List.mem_filter.mp hx
      have hb := hm.2
      intro hin
      have hc : ((seedScan prompt allChars []).map (fun y => y.id)).contains x.id = true := by
        simpa using hin
      rw [hc] at hb
      simp at hb
  · simp [selectCharacters, seedScan, chainScan, scanDesc, hasAliasMatch, strIncludes,
      lowerStr, containsSubList, demoA, demoB]
  · simp [selectCharacters, seedScan, chainScan, scanDesc, hasAliasMatch, strIncludes,
      lowerStr, containsSubList, demoX, demoY]
  · simp [selectCharactersSpec, seedScan, chainScanSpec, scanDesc, hasAliasMatch, strIncludes,
      lowerStr, containsSubList, demoX, demoY]

end StoryWeaver
